import Mathlib

/-! # benchmq: the benchmark specification builder and the three runners

A shallow embedding of `internal/bench` (`bench.go`, `conn.go`, `pub.go`,
`sub.go`).

* Go `int` fields (`clients`, `delay`, `messageCount`) are `Int`, `int` being
  64 bits wide; arithmetic the code performs on them is wrapped explicitly
  (`wrapInt64`, `wrapInt32`).
* `uint8` / `uint16` fields are `Nat`; a narrowing conversion is an explicit `%`.
* Pointers are modelled by what they can point to: a `*config.Config` held by a
  `Bench` is nil or the caller's base configuration, a `*bool` is nil, the
  address of `cfg.Client.CleanSession`, or a variable captured by an option.
* The caller's configuration object is one mutable cell; every function that
  can write to it returns its new contents.
* Logging and the wall clock are not modelled.
-/

namespace Benchmq

/-! ## Data model -/

/-- Modelled from the spec: the `Client` section of `config.Config` (package
`pkg/config`), with the fields the core reads and writes. -/
structure ClientConfig where
  ClientID : String
  CleanSession : Bool
  KeepAlive : Nat
  Username : String
  Password : String
  deriving DecidableEq, Repr

/-- Modelled from the spec: the `Server` section of `config.Config`. -/
structure ServerConfig where
  Host : String
  Port : Nat
  deriving DecidableEq, Repr

/-- Modelled from the spec: `config.Config`, a configuration object exposing
mutable nested client fields. -/
structure Config where
  Client : ClientConfig
  Server : ServerConfig
  deriving DecidableEq, Repr

/-- Modelled from the spec: the error kinds of package `pkg/er` that
`bench.go` uses as `Message` and `Raw`. -/
inductive ErrKind
  | ErrNilConfig
  | ErrInvalidClients
  | ErrInvalidDelay
  | ErrEmptyHost
  | ErrEmptyTopic
  | ErrInvalidPort
  | ErrInvalidQoS
  deriving DecidableEq, Repr

/-- The value `&er.Error{Package, Func, Message, Raw}`. -/
structure Error where
  Package : String
  Func : String
  Message : ErrKind
  Raw : ErrKind
  deriving DecidableEq, Repr

/-- A `*bool` as stored in `Bench.cleanSession`. -/
inductive BoolPtr
  /-- The nil pointer. -/
  | null
  /-- The address `&cfg.Client.CleanSession` of the base configuration. -/
  | cfgCleanSession
  /-- The address of the parameter captured by a `WithCleanSession` closure,
  which holds `v` and is never written again. -/
  | captured (v : Bool)
  deriving DecidableEq, Repr

/-- A `*config.Config` as stored in `Bench.cfg`. -/
inductive ConfigPtr
  /-- The nil pointer. -/
  | null
  /-- The address of the caller-supplied base configuration. -/
  | base
  deriving DecidableEq, Repr

/-- The struct `Bench` (the wait group and the logger are left out). -/
structure Bench where
  delay : Int
  clients : Int
  clientID : String
  topic : String
  message : String
  messageCount : Int
  retained : Bool
  cleanSession : BoolPtr
  qos : Nat
  keepAlive : Nat
  host : String
  port : Nat
  username : String
  password : String
  cfg : ConfigPtr
  deriving DecidableEq, Repr

def QoS0 : Nat := 0
def QoS1 : Nat := 1
def QoS2 : Nat := 2

def DefaultDelay : Int := 1000
def DefaultClients : Int := 100
def DefaultClientID : String := "benchmq-client"
def DefaultTopic : String := "bench/test"
def DefaultCleanSession : Bool := true
def DefaultQoS : Nat := QoS0
def DefaultKeepAlive : Nat := 60
def DefaultMessageCount : Int := 100
def DefaultMessage : String := "Hello, World!"
def DefaultRetained : Bool := false

/-- The state an option runs in: the contents of the caller's base
configuration and the `Bench` under construction. -/
structure BuildState where
  cfg : Config
  bench : Bench
  deriving DecidableEq, Repr

/-- The functions returning an `Option` (`func(*Bench)`), one constructor per
function, carrying its argument. `uint16` arguments are `Nat`. -/
inductive BenchOption
  | WithDelay (delay : Int)
  | WithClients (clients : Int)
  | WithClientID (clientID : String)
  | WithTopic (topic : String)
  | WithCleanSession (cleanSession : Bool)
  | WithQoS (qos : Nat)
  | WithKeepAlive (keepAlive : Nat)
  | WithHost (host : String)
  | WithPort (port : Nat)
  | WithMessage (message : String)
  | WithMessageCount (count : Int)
  | WithRetained (retained : Bool)
  | WithUsername (username : String)
  | WithPassword (password : String)
  deriving DecidableEq, Repr

/-- The conversion `QoSLevel(qos)` from `uint16` to `uint8`. -/
def QoSLevel (qos : Nat) : Nat := qos % 256

/-- Running the closure an option function returned on `&bench`. -/
def BenchOption.apply (s : BuildState) : BenchOption → BuildState
  | .WithDelay delay => { s with bench := { s.bench with delay := delay } }
  | .WithClients clients => { s with bench := { s.bench with clients := clients } }
  | .WithClientID clientID => { s with bench := { s.bench with clientID := clientID } }
  | .WithTopic topic => { s with bench := { s.bench with topic := topic } }
  | .WithCleanSession cleanSession =>
    let b := { s.bench with cleanSession := BoolPtr.captured cleanSession }
    match b.cfg with
    | .base =>
      { cfg := { s.cfg with Client := { s.cfg.Client with CleanSession := cleanSession } },
        bench := b }
    | .null => { s with bench := b }
  | .WithQoS qos => { s with bench := { s.bench with qos := QoSLevel qos } }
  | .WithKeepAlive keepAlive =>
    let b := { s.bench with keepAlive := keepAlive }
    match b.cfg with
    | .base =>
      { cfg := { s.cfg with Client := { s.cfg.Client with KeepAlive := keepAlive } },
        bench := b }
    | .null => { s with bench := b }
  | .WithHost host =>
    let b := { s.bench with host := host }
    match b.cfg with
    | .base =>
      { cfg := { s.cfg with Server := { s.cfg.Server with Host := host } }, bench := b }
    | .null => { s with bench := b }
  | .WithPort port =>
    let b := { s.bench with port := port }
    match b.cfg with
    | .base =>
      { cfg := { s.cfg with Server := { s.cfg.Server with Port := port } }, bench := b }
    | .null => { s with bench := b }
  | .WithMessage message => { s with bench := { s.bench with message := message } }
  | .WithMessageCount count => { s with bench := { s.bench with messageCount := count } }
  | .WithRetained retained => { s with bench := { s.bench with retained := retained } }
  | .WithUsername username => { s with bench := { s.bench with username := username } }
  | .WithPassword password => { s with bench := { s.bench with password := password } }

/-- The error `validate` builds for a failed check. -/
def validateError (k : ErrKind) : Error :=
  { Package := "Bench", Func := "Validate", Message := k, Raw := k }

/-- The tail of `validate`, reached when every check passed: the three
conditional assignments `if b.clientID == "" { b.clientID = DefaultClientID }`,
`if b.keepAlive == 0 { b.keepAlive = DefaultKeepAlive }` and
`if b.cleanSession == nil { cs := true; b.cleanSession = &cs }`. -/
def Bench.applyDefaults (b : Bench) : Bench :=
  { b with
    clientID := if b.clientID = "" then DefaultClientID else b.clientID
    keepAlive := if b.keepAlive = 0 then DefaultKeepAlive else b.keepAlive
    cleanSession :=
      if b.cleanSession = BoolPtr.null then BoolPtr.captured true else b.cleanSession }

/-- The method `(*Bench).validate`: the checks in source order, then the
defaults written into the receiver. -/
def Bench.validate (b : Bench) : Except Error Bench :=
  if b.clients ≤ 0 then .error (validateError .ErrInvalidClients)
  else if b.delay < 0 then .error (validateError .ErrInvalidDelay)
  else if b.host = "" then .error (validateError .ErrEmptyHost)
  else if b.topic = "" then .error (validateError .ErrEmptyTopic)
  else if b.port = 0 then .error (validateError .ErrInvalidPort)
  else if b.qos > QoS2 then .error (validateError .ErrInvalidQoS)
  else .ok b.applyDefaults

/-- The `Bench` literal `NewBenchmark` starts from. -/
def initialBench (cfg : Config) : Bench :=
  { delay := DefaultDelay
    clients := DefaultClients
    clientID := DefaultClientID
    topic := DefaultTopic
    message := DefaultMessage
    messageCount := DefaultMessageCount
    retained := DefaultRetained
    cleanSession := BoolPtr.cfgCleanSession
    qos := DefaultQoS
    keepAlive := cfg.Client.KeepAlive
    host := cfg.Server.Host
    port := cfg.Server.Port
    username := ""
    password := ""
    cfg := ConfigPtr.base }

/-- The loop `for _, option := range options { if option != nil { option(&bench) } }`;
a nil option is `none`. -/
def applyOptions (s : BuildState) (options : List (Option BenchOption)) : BuildState :=
  options.foldl (fun s option =>
    match option with
    | some o => o.apply s
    | none => s) s

/-- What a call of `NewBenchmark` leaves behind: the contents of the caller's
configuration object after the call (`none` for a nil pointer) and the
returned pair, an error or the built `Bench`. -/
structure BuildResult where
  cfg : Option Config
  result : Except Error Bench

/-- The constructor `NewBenchmark(cfg, options...)`. -/
def NewBenchmark (cfg : Option Config) (options : List (Option BenchOption)) : BuildResult :=
  match cfg with
  | none =>
    { cfg := none
      result := .error
        { Package := "Bench", Func := "NewBenchmark",
          Message := .ErrNilConfig, Raw := .ErrNilConfig } }
  | some c =>
    let s := applyOptions { cfg := c, bench := initialBench c } options
    { cfg := some s.cfg, result := s.bench.validate }

/-- The `Bench` as it stands when `validate` is called. -/
def benchAfterOptions (c : Config) (options : List (Option BenchOption)) : Bench :=
  (applyOptions { cfg := c, bench := initialBench c } options).bench

/-- The value `*b.cleanSession` reads, given the current contents of the base
configuration; `none` is a nil dereference. -/
def BoolPtr.deref (cfg : Config) : BoolPtr → Option Bool
  | .null => none
  | .cfgCleanSession => some cfg.Client.CleanSession
  | .captured v => some v

/-- The validation sequence as the specification words it: the checks in
their fixed order, each with the kind of error it raises. -/
def orderedChecks : List ((Bench → Bool) × ErrKind) :=
  [ (fun b => decide (b.clients ≤ 0), .ErrInvalidClients),
    (fun b => decide (b.delay < 0), .ErrInvalidDelay),
    (fun b => decide (b.host = ""), .ErrEmptyHost),
    (fun b => decide (b.topic = ""), .ErrEmptyTopic),
    (fun b => decide (b.port = 0), .ErrInvalidPort),
    (fun b => decide (b.qos > 2), .ErrInvalidQoS) ]

/-- The kind of the earliest check of `orderedChecks` that `b` violates. -/
def firstViolation (b : Bench) : Option ErrKind :=
  (orderedChecks.find? (fun c => c.1 b)).map Prod.snd

/-- The six conditions `validate` rejects, read off the fields of a `Bench`. -/
def Bench.violates (b : Bench) : Prop :=
  b.clients ≤ 0 ∨ b.delay < 0 ∨ b.host = "" ∨ b.topic = "" ∨ b.port = 0 ∨ b.qos > 2

instance (b : Bench) : Decidable b.violates := by
  unfold Bench.violates; infer_instance

/-- A base configuration as a configuration file would give it: broker on
`localhost:1883`, clean sessions, keep-alive 60. -/
def sampleConfig : Config :=
  { Client := { ClientID := "", CleanSession := true, KeepAlive := 60,
                Username := "", Password := "" },
    Server := { Host := "localhost", Port := 1883 } }

/-- The base configuration `sampleConfig` with `Client.CleanSession` false. -/
def persistentConfig : Config :=
  { sampleConfig with Client := { sampleConfig.Client with CleanSession := false } }

/-- The fields of `Bench` an option function can write. -/
inductive Field
  | delay | clients | clientID | topic | cleanSession | qos | keepAlive
  | host | port | message | messageCount | retained | username | password
  deriving DecidableEq, Repr

/-- The field the option writes. -/
def BenchOption.field : BenchOption → Field
  | .WithDelay _ => .delay
  | .WithClients _ => .clients
  | .WithClientID _ => .clientID
  | .WithTopic _ => .topic
  | .WithCleanSession _ => .cleanSession
  | .WithQoS _ => .qos
  | .WithKeepAlive _ => .keepAlive
  | .WithHost _ => .host
  | .WithPort _ => .port
  | .WithMessage _ => .message
  | .WithMessageCount _ => .messageCount
  | .WithRetained _ => .retained
  | .WithUsername _ => .username
  | .WithPassword _ => .password

/-- Two build states hold the same value for a field: the same `Bench` field
and, for the four fields mirrored in the base configuration, the same
configuration field. -/
def BuildState.sameAt (f : Field) (s t : BuildState) : Prop :=
  match f with
  | .delay => s.bench.delay = t.bench.delay
  | .clients => s.bench.clients = t.bench.clients
  | .clientID => s.bench.clientID = t.bench.clientID
  | .topic => s.bench.topic = t.bench.topic
  | .cleanSession => s.bench.cleanSession = t.bench.cleanSession ∧
      s.cfg.Client.CleanSession = t.cfg.Client.CleanSession
  | .qos => s.bench.qos = t.bench.qos
  | .keepAlive => s.bench.keepAlive = t.bench.keepAlive ∧
      s.cfg.Client.KeepAlive = t.cfg.Client.KeepAlive
  | .host => s.bench.host = t.bench.host ∧ s.cfg.Server.Host = t.cfg.Server.Host
  | .port => s.bench.port = t.bench.port ∧ s.cfg.Server.Port = t.cfg.Server.Port
  | .message => s.bench.message = t.bench.message
  | .messageCount => s.bench.messageCount = t.bench.messageCount
  | .retained => s.bench.retained = t.bench.retained
  | .username => s.bench.username = t.bench.username
  | .password => s.bench.password = t.bench.password

/-- What holds of a build state from the `Bench` literal of `NewBenchmark` on:
the `Bench` points to the base configuration, its `cleanSession` pointer is
not nil, and its host and port are those of the base configuration. -/
def BuildState.linked (s : BuildState) : Prop :=
  s.bench.cfg = ConfigPtr.base ∧ s.bench.cleanSession ≠ BoolPtr.null ∧
  s.bench.host = s.cfg.Server.Host ∧ s.bench.port = s.cfg.Server.Port

/-- The value a field of the returned spec has when no option wrote it: the
built-in default of the `Bench` literal, or the value of the base
configuration `c` for keepAlive (60 when that is 0), host, port and
cleanSession (read through the pointer, in the configuration `r.cfg` the call
left behind). -/
def keepsBaseValue (f : Field) (c : Config) (r : BuildResult) (spec : Bench) : Prop :=
  match f with
  | .delay => spec.delay = 1000
  | .clients => spec.clients = 100
  | .clientID => spec.clientID = "benchmq-client"
  | .topic => spec.topic = "bench/test"
  | .cleanSession =>
    match r.cfg with
    | some c' => spec.cleanSession.deref c' = some c.Client.CleanSession
    | none => False
  | .qos => spec.qos = 0
  | .keepAlive => spec.keepAlive = if c.Client.KeepAlive = 0 then 60 else c.Client.KeepAlive
  | .host => spec.host = c.Server.Host
  | .port => spec.port = c.Server.Port
  | .message => spec.message = "Hello, World!"
  | .messageCount => spec.messageCount = 100
  | .retained => spec.retained = false
  | .username => spec.username = ""
  | .password => spec.password = ""

/-! ## The runners -/

/-- A value as a Go `int32` holds it: two's complement on 32 bits. -/
def wrapInt32 (x : Int) : Int := (x + 2 ^ 31) % 2 ^ 32 - 2 ^ 31

/-- A value as a Go `int64` (and `int`, `time.Duration`) holds it. -/
def wrapInt64 (x : Int) : Int := (x + 2 ^ 63) % 2 ^ 64 - 2 ^ 63

/-- The constant `time.Millisecond`, in nanoseconds. -/
def Millisecond : Int := 1000000

/-- The constant `time.Second`, in nanoseconds. -/
def Second : Int := 1000000000

/-- The expression `fmt.Sprintf("%s-%d", clientID, id)`. -/
def workerClientID (clientID : String) (id : Int) : String :=
  clientID ++ "-" ++ toString id

/-- The five assignments every worker starts with: `cfg := *b.cfg`, then
`cfg.Client.ClientID = id`, `cfg.Client.CleanSession = *b.cleanSession`,
`cfg.Client.KeepAlive = b.keepAlive`, `cfg.Client.Username = b.username`,
`cfg.Client.Password = b.password`. `base` is what the base configuration
holds when the worker runs; `none` is a nil dereference. -/
def Bench.sessionConfig (b : Bench) (base : Config) (id : String) : Option Config :=
  match b.cfg, b.cleanSession.deref base with
  | .base, some cs =>
    some { base with
      Client :=
        { base.Client with
          ClientID := id
          CleanSession := cs
          KeepAlive := b.keepAlive
          Username := b.username
          Password := b.password } }
  | _, _ => none

/-- What a worker goroutine does, in order: calls on its client, sleeps,
atomic additions to the shared counters, log lines, and the deferred
`b.wg.Done()`. -/
inductive Event
  /-- The call `mqtt.NewClient(&cfg)`. -/
  | newClient (cfg : Config)
  | connect
  | disconnect
  /-- The call `client.Publish(topic, qos, retained, payload, callback)`. -/
  | publish (topic : String) (qos : Nat) (retained : Bool) (payload : String)
  /-- The call `client.Subscribe(topic, qos, retained, callback)`. -/
  | subscribe (topic : String) (qos : Nat) (retained : Bool)
  /-- The call `time.Sleep(d)`, `d` in nanoseconds. -/
  | sleep (d : Int)
  /-- The call `atomic.AddInt32(&failed, delta)` or `atomic.AddInt64(&failed, delta)`. -/
  | addFailed (delta : Int)
  /-- The call `atomic.AddInt32(&succeeded, delta)` in a delivery callback. -/
  | addSucceeded (delta : Int)
  /-- The call `atomic.AddInt64(&received, delta)` in a message callback. -/
  | addReceived (delta : Int)
  | logError (msg : String)
  | logClientConnection (clientID : String)
  | logPublish (clientID : String)
  | logSubscribe (clientID : String) (payload : String)
  | wgDone
  /-- A nil pointer dereference. -/
  | panic
  deriving DecidableEq, Repr

/-- What the goroutine that called a runner does while it launches workers
and waits for them. -/
inductive LaunchEvent
  | wgAdd (n : Int)
  /-- The statement `go func(...)`, starting the worker with this index. -/
  | go (id : Int)
  /-- The call `time.Sleep(d)`, `d` in nanoseconds. -/
  | sleep (d : Int)
  | wgWait
  | logFinished
  deriving DecidableEq, Repr

/-- Modelled from the spec: the client capability of package `internal/mqtt`,
as the answers it gives during one run. Every worker makes at most one
`Connect`, one `Subscribe` and one `Publish` per loop index, so the answers
are indexed by worker (and publish attempt). -/
structure Capability where
  /-- Worker `i`: `Connect()` returns a non-nil error. -/
  connectFails : Nat → Bool
  /-- Worker `i`, attempt `j`: `Publish` returns a non-nil error. -/
  publishFails : Nat → Nat → Bool
  /-- Worker `i`, attempt `j`: how often the delivery callback has run by the
  time the summary is read. -/
  publishCallbacks : Nat → Nat → Nat
  /-- Worker `i`: `Subscribe` returns a non-nil error. -/
  subscribeFails : Nat → Bool
  /-- Worker `i`: the payloads its message callback has been run with by the
  time the summary is read. -/
  received : Nat → List String

/-- The goroutine `RunConnections` starts for index `id`. -/
def RunConnections.worker (b : Bench) (base : Config) (cap : Capability) (id : Nat) :
    List Event :=
  match b.sessionConfig base (workerClientID b.clientID id) with
  | none => [.panic, .wgDone]
  | some cfg =>
    [.newClient cfg, .connect] ++
    (if cap.connectFails id then [.logError "couldn't establish client"]
     else [.logClientConnection cfg.Client.ClientID]) ++
    [.disconnect, .wgDone]

/-- The launching side of `RunConnections`: the loop
`for i := 0; i < b.clients; i++ { b.wg.Add(1); go ...(i); time.Sleep(...) }`,
then `b.wg.Wait()` and the closing log line. The sleep argument is
`time.Duration(b.delay) * time.Millisecond`, a 64-bit product. -/
def RunConnections.launch (b : Bench) : List LaunchEvent :=
  (List.range b.clients.toNat).flatMap
    (fun i => [.wgAdd 1, .go i, .sleep (wrapInt64 (b.delay * Millisecond))]) ++
  [.wgWait, .logFinished]

/-- One pass of the publish loop of worker `i`, for loop index `j`. -/
def PublishMessages.attempt (b : Bench) (cap : Capability) (id : String) (i j : Nat) :
    List Event :=
  (if b.delay > 0 then [.sleep (wrapInt64 (b.delay * Millisecond))] else []) ++
  [.publish b.topic b.qos b.retained b.message] ++
  (List.replicate (cap.publishCallbacks i j) [Event.addSucceeded 1, .logPublish id]).flatten ++
  (if cap.publishFails i j then [.addFailed 1, .logError "failed to publish message"] else [])

/-- The goroutine `PublishMessages` starts for index `i`. -/
def PublishMessages.worker (b : Bench) (base : Config) (cap : Capability) (i : Nat) :
    List Event :=
  let id := workerClientID b.clientID i
  match b.sessionConfig base id with
  | none => [.panic, .wgDone]
  | some cfg =>
    [.newClient cfg, .connect] ++
    (if cap.connectFails i then
      [.addFailed (wrapInt32 b.messageCount), .logError "couldn't establish client", .wgDone]
    else
      [.logClientConnection cfg.Client.ClientID] ++
      (List.range b.messageCount.toNat).flatMap (PublishMessages.attempt b cap id i) ++
      [.disconnect, .wgDone])

/-- The launching side of `PublishMessages` and `Subscribe`: the loop
`for i := 0; i < b.clients; i++ { b.wg.Add(1); ...; go ...(clientID) }`, then
`b.wg.Wait()`. -/
def launchAll (b : Bench) : List LaunchEvent :=
  (List.range b.clients.toNat).flatMap (fun i => [.wgAdd 1, .go i]) ++ [.wgWait, .logFinished]

/-- The value of the `int32` counter `failed` after the additions in `evs`. -/
def failed32 (evs : List Event) : Int :=
  evs.foldl (fun acc e => match e with | .addFailed d => wrapInt32 (acc + d) | _ => acc) 0

/-- The value of the `int32` counter `succeeded` after the additions in `evs`. -/
def succeeded32 (evs : List Event) : Int :=
  evs.foldl (fun acc e => match e with | .addSucceeded d => wrapInt32 (acc + d) | _ => acc) 0

/-- The fields of the closing log line of `PublishMessages` (without the
elapsed time and the throughput). -/
structure PublishSummary where
  clients : Int
  messagesPerClient : Int
  totalMessages : Int
  successful : Int
  failed : Int
  deriving DecidableEq, Repr

/-- The events of all workers of `PublishMessages`, worker after worker. The
counters only see additions, which commute, so the order in which the
goroutines really interleave does not change their final values. -/
def PublishMessages.events (b : Bench) (base : Config) (cap : Capability) : List Event :=
  (List.range b.clients.toNat).flatMap (PublishMessages.worker b base cap)

/-- The summary `PublishMessages` logs after `b.wg.Wait()`:
`total := b.clients * b.messageCount` and the two counters. -/
def PublishMessages (b : Bench) (base : Config) (cap : Capability) : PublishSummary :=
  { clients := b.clients
    messagesPerClient := b.messageCount
    totalMessages := wrapInt64 (b.clients * b.messageCount)
    successful := succeeded32 (PublishMessages.events b base cap)
    failed := failed32 (PublishMessages.events b base cap) }

/-- The dwell of a subscribe worker: `time.Duration(b.delay) * time.Millisecond *
time.Duration(b.messageCount)` when `b.delay > 0`, else `time.Second * 5`. -/
def Subscribe.dwell (b : Bench) : Int :=
  if b.delay > 0 then wrapInt64 (wrapInt64 (b.delay * Millisecond) * b.messageCount)
  else wrapInt64 (Second * 5)

/-- The goroutine `Subscribe` starts for index `i`. The deferred
`client.Disconnect()` is commented out in the source. -/
def Subscribe.worker (b : Bench) (base : Config) (cap : Capability) (i : Nat) :
    List Event :=
  let id := workerClientID b.clientID i
  match b.sessionConfig base id with
  | none => [.panic, .wgDone]
  | some cfg =>
    [.newClient cfg, .connect] ++
    (if cap.connectFails i then
      [.addFailed 1, .logError "subscriber connection failed", .wgDone]
    else
      [.logClientConnection cfg.Client.ClientID, .subscribe b.topic b.qos b.retained] ++
      (if cap.subscribeFails i then
        [.addFailed 1, .logError "failed to subscribe", .wgDone]
      else
        (cap.received i).flatMap (fun payload => [.addReceived 1, .logSubscribe id payload]) ++
        [.sleep (Subscribe.dwell b), .wgDone]))

/-- The configuration handed to `mqtt.NewClient` by a worker, if it got that far. -/
def clientConfig (evs : List Event) : Option Config :=
  evs.findSome? (fun e => match e with | .newClient cfg => some cfg | _ => none)

/-- The time a `time.Sleep(d)` takes from the goroutine: `d`, and nothing for
a zero or negative `d`. -/
def sleptNs (d : Int) : Int := max d 0

/-- The total time the launching goroutine spends in `time.Sleep`, in nanoseconds. -/
def launchSleepNs (evs : List LaunchEvent) : Int :=
  (evs.map (fun e => match e with | .sleep d => sleptNs d | _ => 0)).sum

/-- The worker indices in the order they are launched. -/
def launched (evs : List LaunchEvent) : List Int :=
  evs.filterMap (fun e => match e with | .go id => some id | _ => none)

/-- Is the event a `Publish` call? -/
def Event.isPublish : Event → Bool
  | .publish _ _ _ _ => true
  | _ => false

/-- A capability whose every `Connect` fails. -/
def neverConnects : Capability :=
  { connectFails := fun _ => true
    publishFails := fun _ _ => false
    publishCallbacks := fun _ _ => 0
    subscribeFails := fun _ => false
    received := fun _ => [] }

/-- A capability that always connects and confirms every publish once. -/
def alwaysDelivers : Capability :=
  { connectFails := fun _ => false
    publishFails := fun _ _ => false
    publishCallbacks := fun _ _ => 1
    subscribeFails := fun _ => false
    received := fun _ => [] }

/-- The number a list of decimal digit characters spells, most significant
digit first. -/
def digitsValue (cs : List Char) : Nat :=
  cs.foldl (fun acc ch => 10 * acc + (ch.toNat - 48)) 0

/-- The session configuration the claim describes for worker `i` of spec `b`,
with clean-session flag `cs` and server section `server`. -/
def expectedSession (b : Bench) (cs : Bool) (server : ServerConfig) (i : Nat) : Config :=
  { Client :=
      { ClientID := b.clientID ++ "-" ++ toString i
        CleanSession := cs
        KeepAlive := b.keepAlive
        Username := b.username
        Password := b.password }
    Server := server }

/-- The sum of the deltas of the additions to `failed` in `evs`. -/
def sumFailed (evs : List Event) : Int :=
  (evs.map (fun e => match e with | .addFailed d => d | _ => 0)).sum

/-- The sum of the deltas of the additions to `succeeded` in `evs`. -/
def sumSucceeded (evs : List Event) : Int :=
  (evs.map (fun e => match e with | .addSucceeded d => d | _ => 0)).sum

/-- The number of `Publish` calls in `evs`. -/
def publishAttempts (evs : List Event) : Nat := evs.countP Event.isPublish

/-- Attempt `j` of worker `i` is counted once when the summary is read:
either `Publish` returned an error and no callback has run, or it returned no
error and the callback has run exactly once by then. -/
def Capability.exclusive (cap : Capability) (i j : Nat) : Prop :=
  (cap.publishFails i j = true ∧ cap.publishCallbacks i j = 0) ∨
  (cap.publishFails i j = false ∧ cap.publishCallbacks i j = 1)

/-- The contract of `Publish` for attempt `j` of worker `i`, where
`fired i j` is how often the delivery callback of that attempt runs in all,
sooner or later: either the call returns an error and the callback never
fires, or it returns no error and the callback fires exactly once. -/
def Capability.honours (cap : Capability) (fired : Nat → Nat → Nat) (i j : Nat) : Prop :=
  (cap.publishFails i j = true ∧ fired i j = 0) ∨
  (cap.publishFails i j = false ∧ fired i j = 1)

/-- Every firing of the delivery callback of attempt `j` of worker `i` has
happened by the time the summary is read. `PublishMessages` waits for the
workers only (`b.wg.Wait()`), not for callbacks. -/
def Capability.settled (cap : Capability) (fired : Nat → Nat → Nat) (i j : Nat) : Prop :=
  cap.publishCallbacks i j = fired i j

/-- Every delivery callback fires exactly once, sooner or later. -/
def firesOnce : Nat → Nat → Nat := fun _ _ => 1

/-- A capability that always connects and accepts every publish, and whose
delivery callback for the third attempt (index 2) of a worker has not run yet
when the summary is read. -/
def lateThird : Capability :=
  { connectFails := fun _ => false
    publishFails := fun _ _ => false
    publishCallbacks := fun _ j => if j = 2 then 0 else 1
    subscribeFails := fun _ => false
    received := fun _ => [] }

/-- The arguments of the `time.Sleep` calls in `evs`, in order. -/
def sleeps (evs : List Event) : List Int :=
  evs.filterMap (fun e => match e with | .sleep d => some d | _ => none)

/-- The deltas of the additions to `failed` in `evs`, in order. -/
def failedAdds (evs : List Event) : List Int :=
  evs.filterMap (fun e => match e with | .addFailed d => some d | _ => none)

/-- Is the event a `Subscribe` call? -/
def Event.isSubscribe : Event → Bool
  | .subscribe _ _ _ => true
  | _ => false

/-- The value of the `int64` counter `failed` of `Subscribe` after the
additions in `evs`. -/
def failed64 (evs : List Event) : Int :=
  evs.foldl (fun acc e => match e with | .addFailed d => wrapInt64 (acc + d) | _ => acc) 0

/-- The value of the `int64` counter `received` of `Subscribe` after the
additions in `evs`. -/
def received64 (evs : List Event) : Int :=
  evs.foldl (fun acc e => match e with | .addReceived d => wrapInt64 (acc + d) | _ => acc) 0

/-- The fields of the closing log line of `Subscribe` (without the elapsed
time and the throughput). -/
structure SubscribeSummary where
  clients : Int
  expectedMessages : Int
  received : Int
  failed : Int
  deriving DecidableEq, Repr

/-- The events of all workers of `Subscribe`, worker after worker (the
counters only see additions, which commute). -/
def Subscribe.events (b : Bench) (base : Config) (cap : Capability) : List Event :=
  (List.range b.clients.toNat).flatMap (Subscribe.worker b base cap)

/-- The summary `Subscribe` logs after `b.wg.Wait()`:
`expected := int64(b.clients) * int64(b.messageCount)` and the two counters. -/
def Subscribe (b : Bench) (base : Config) (cap : Capability) : SubscribeSummary :=
  { clients := b.clients
    expectedMessages := wrapInt64 (b.clients * b.messageCount)
    received := received64 (Subscribe.events b base cap)
    failed := failed64 (Subscribe.events b base cap) }

/-- A capability that connects, registers every subscription and delivers the
payloads `"a"` and `"b"` to every subscriber. -/
def alwaysReceives : Capability :=
  { connectFails := fun _ => false
    publishFails := fun _ _ => false
    publishCallbacks := fun _ _ => 1
    subscribeFails := fun _ => false
    received := fun _ => ["a", "b"] }

/-- A capability that connects and then refuses every subscription. -/
def neverSubscribes : Capability :=
  { connectFails := fun _ => false
    publishFails := fun _ _ => false
    publishCallbacks := fun _ _ => 0
    subscribeFails := fun _ => true
    received := fun _ => [] }

/-- Does the option function also write the base configuration
(`if b.cfg != nil { b.cfg... = ... }`)? True for `WithCleanSession`,
`WithKeepAlive`, `WithHost` and `WithPort`. -/
def BenchOption.writesConfig : BenchOption → Bool
  | .WithCleanSession _ => true
  | .WithKeepAlive _ => true
  | .WithHost _ => true
  | .WithPort _ => true
  | _ => false

/-- Is the event a call on the client capability (`Connect`, `Disconnect`,
`Publish`, `Subscribe`)? -/
def Event.isCapabilityCall : Event → Bool
  | .connect => true
  | .disconnect => true
  | .publish _ _ _ _ => true
  | .subscribe _ _ _ => true
  | _ => false

/-! ## The completion barrier -/

/-- A run of a runner under way: what the launching goroutine still has to
do, what each started worker still has to do (in the order they were
started), the counter of the wait group `b.wg`, and whether the closing log
line has been written. -/
structure RunState where
  launcher : List LaunchEvent
  workers : List (List Event)
  counter : Int
  summaryLogged : Bool
  deriving DecidableEq, Repr

/-- Whose turn it is: the launching goroutine, or the `k`-th started worker. -/
inductive Turn
  | launcher
  | worker (k : Nat)
  deriving DecidableEq, Repr

/-- The `k`-th worker runs its next event; `none` when there is no such worker
or it has returned. -/
def stepWorker : Nat → List (List Event) → Option (List (List Event) × Event)
  | _, [] => none
  | 0, [] :: _ => none
  | 0, (e :: rest) :: ws => some (rest :: ws, e)
  | k + 1, w :: ws =>
    match stepWorker k ws with
    | none => none
    | some (ws', e) => some (w :: ws', e)

/-- One step of a run. Modelled from the spec: the wait group is a join
counter, `Add(n)` adds `n`, `Done()` subtracts one, and `Wait()` can only be
passed while the counter is zero. `go` starts the worker `W id`; `none` means
the goroutine whose turn it is cannot move (it is blocked or has ended). -/
def RunState.step (W : Nat → List Event) (s : RunState) : Turn → Option RunState
  | .launcher =>
    match s.launcher with
    | [] => none
    | .wgAdd n :: rest => some { s with launcher := rest, counter := s.counter + n }
    | .go id :: rest => some { s with launcher := rest, workers := s.workers ++ [W id.toNat] }
    | .sleep _ :: rest => some { s with launcher := rest }
    | .wgWait :: rest => if s.counter = 0 then some { s with launcher := rest } else none
    | .logFinished :: rest => some { s with launcher := rest, summaryLogged := true }
  | .worker k =>
    match stepWorker k s.workers with
    | none => none
    | some (ws, e) =>
      some { s with
        workers := ws
        counter := if e = Event.wgDone then s.counter - 1 else s.counter }

/-- A run along a schedule, one turn after the other; `none` when the
schedule asks a goroutine to move that cannot. -/
def RunState.run (W : Nat → List Event) (s : RunState) : List Turn → Option RunState
  | [] => some s
  | t :: ts =>
    match s.step W t with
    | none => none
    | some s' => s'.run W ts

/-- The state a runner starts in, with the events of its launching goroutine. -/
def initialRun (launcher : List LaunchEvent) : RunState :=
  { launcher := launcher, workers := [], counter := 0, summaryLogged := false }

/-- Is the event one of the launch loop (`wg.Add`, `go`, `time.Sleep`)? -/
def LaunchEvent.isLaunchStep : LaunchEvent → Bool
  | .wgAdd _ => true
  | .go _ => true
  | .sleep _ => true
  | _ => false

/-- Is the event a `time.Sleep` of the launching goroutine? -/
def LaunchEvent.isSleep : LaunchEvent → Bool
  | .sleep _ => true
  | _ => false

/-- The sum of the `wg.Add` arguments still to come. -/
def pendingAdds (p : List LaunchEvent) : Int :=
  (p.map (fun e => match e with | .wgAdd n => n | _ => 0)).sum

/-- The number of `go` statements still to come. -/
def pendingGos (p : List LaunchEvent) : Int :=
  (p.map (fun e => match e with | .go _ => 1 | _ => 0)).sum

/-- The number of `wg.Done()` calls the started workers still have to make. -/
def undone (ws : List (List Event)) : Int :=
  (ws.map (fun w => (w.count Event.wgDone : Int))).sum

/-- Every started worker has returned. -/
def allReturned (ws : List (List Event)) : Prop := ∀ w ∈ ws, w = []

/-- Every started worker has returned or ends with `wg.Done()`. -/
def endWithDone (ws : List (List Event)) : Prop :=
  ∀ w ∈ ws, w = [] ∨ w.getLast? = some Event.wgDone

/-- What holds of every state of a run that launches `N` workers: before the
wait is passed the counter accounts for the launches and the outstanding
`Done` calls; after it every worker has returned. -/
def RunState.balanced (N : Int) (s : RunState) : Prop :=
  (∃ p, s.launcher = p ++ [.wgWait, .logFinished] ∧
    (∀ e ∈ p, e.isLaunchStep = true) ∧ s.summaryLogged = false ∧
    s.counter + pendingAdds p = undone s.workers + pendingGos p ∧
    endWithDone s.workers ∧ (s.workers.length : Int) + pendingGos p = N) ∨
  ((s.launcher = [.logFinished] ∧ s.summaryLogged = false ∨ s.launcher = []) ∧
    s.counter = 0 ∧ allReturned s.workers ∧ (s.workers.length : Int) = N)

/-- A spec with two clients and no stagger, as `WithClients(2)` and
`WithDelay(0)` on `sampleConfig` give it. -/
def twoClients : Bench :=
  { (initialBench sampleConfig).applyDefaults with clients := 2, delay := 0 }

/-- A schedule of the connection runner for two workers: both are launched,
the first runs its five events, then the second, then the launching goroutine
passes the wait and logs. -/
def sequentialSchedule : List Turn :=
  List.replicate 6 Turn.launcher ++ List.replicate 5 (Turn.worker 0) ++
    List.replicate 5 (Turn.worker 1) ++ List.replicate 2 Turn.launcher

/-! # Properties -/

/-! ## Construction: which inputs fail -/

theorem validate_error_iff (b : Bench) :
    (∃ e, b.validate = .error e) ↔ b.violates := by
  unfold Bench.validate Bench.violates QoS2
  constructor
  · intro h
    by_contra hc
    simp only [not_or, not_le, not_lt] at hc
    obtain ⟨h1, h2, h3, h4, h5, h6⟩ := hc
    obtain ⟨e, he⟩ := h
    simp [not_le.mpr h1, not_lt.mpr h2, h3, h4, h5, not_lt.mpr h6] at he
  · intro h
    split_ifs <;> first | exact ⟨_, rfl⟩ | (exfalso; omega) | (exfalso; tauto)

theorem validate_ok_iff (b : Bench) :
    (∃ spec, b.validate = .ok spec) ↔ ¬ b.violates := by
  rw [← validate_error_iff]
  cases h : b.validate with
  | error e => simp
  | ok spec => simp

/-- C1: for a non-nil base configuration and any option list, `NewBenchmark`
returns an error exactly when the `Bench`, after all options have been applied,
has clients <= 0, delay < 0, an empty host, an empty topic, port 0 or qos > 2;
in every other case it returns a spec and no error. -/
theorem C1_error_iff_violation (c : Config) (options : List (Option BenchOption)) :
    ((∃ e, (NewBenchmark (some c) options).result = .error e) ↔
      (benchAfterOptions c options).clients ≤ 0 ∨ (benchAfterOptions c options).delay < 0 ∨
      (benchAfterOptions c options).host = "" ∨ (benchAfterOptions c options).topic = "" ∨
      (benchAfterOptions c options).port = 0 ∨ (benchAfterOptions c options).qos > 2) ∧
    ((∃ spec, (NewBenchmark (some c) options).result = .ok spec) ↔
      ¬ ((benchAfterOptions c options).clients ≤ 0 ∨ (benchAfterOptions c options).delay < 0 ∨
      (benchAfterOptions c options).host = "" ∨ (benchAfterOptions c options).topic = "" ∨
      (benchAfterOptions c options).port = 0 ∨ (benchAfterOptions c options).qos > 2)) :=
  ⟨validate_error_iff _, validate_ok_iff _⟩

/-! ## Construction: which error -/

theorem validate_eq_firstViolation (b : Bench) :
    b.validate =
      match firstViolation b with
      | some k => .error (validateError k)
      | none => .ok b.applyDefaults := by
  unfold Bench.validate firstViolation orderedChecks QoS2
  by_cases h1 : b.clients ≤ 0
  · simp [List.find?, h1]
  by_cases h2 : b.delay < 0
  · simp [List.find?, h1, h2]
  by_cases h3 : b.host = ""
  · simp [List.find?, h1, h2, h3]
  by_cases h4 : b.topic = ""
  · simp [List.find?, h1, h2, h3, h4]
  by_cases h5 : b.port = 0
  · simp [List.find?, h1, h2, h3, h4, h5]
  by_cases h6 : b.qos > 2
  · simp [List.find?, h1, h2, h3, h4, h5, h6]
  · simp [List.find?, h1, h2, h3, h4, h5, h6]

theorem benchAfterOptions_append (c : Config) (xs ys : List (Option BenchOption)) :
    benchAfterOptions c (xs ++ ys) =
      (applyOptions (applyOptions { cfg := c, bench := initialBench c } xs) ys).bench := by
  simp [benchAfterOptions, applyOptions, List.foldl_append]

/-- C2: `NewBenchmark` returns one error, of the kind of the first violated
check in the fixed order: a nil base configuration gives the nil-config error
whatever the options; otherwise the result is the error of the earliest
violated check among clients <= 0, delay < 0, empty host, empty topic, port 0,
qos > 2 (and the spec when none is violated). In particular clients = 0
together with an empty topic gives the invalid-clients error. -/
theorem C2_first_violation_wins :
    (∀ options : List (Option BenchOption),
      (NewBenchmark none options).result =
        .error { Package := "Bench", Func := "NewBenchmark",
                 Message := .ErrNilConfig, Raw := .ErrNilConfig }) ∧
    (∀ (c : Config) (options : List (Option BenchOption)),
      (NewBenchmark (some c) options).result =
        match firstViolation (benchAfterOptions c options) with
        | some k => .error (validateError k)
        | none => .ok (benchAfterOptions c options).applyDefaults) ∧
    (∀ (c : Config) (options : List (Option BenchOption)),
      (NewBenchmark (some c)
          (options ++ [some (.WithClients 0), some (.WithTopic "")])).result =
        .error (validateError .ErrInvalidClients)) := by
  refine ⟨fun _ => rfl, fun c options => validate_eq_firstViolation _, fun c options => ?_⟩
  show (benchAfterOptions c _).validate = _
  rw [benchAfterOptions_append]
  simp [applyOptions, BenchOption.apply, Bench.validate]

/-! ## Construction: quality of service -/

/-- C3: the override `WithQoS(256)` on an otherwise valid input is accepted:
the conversion to `QoSLevel` keeps the low eight bits, the check `qos > 2`
sees 0, and a spec with qos 0 is built from a requested QoS of 256. -/
theorem C3_qos_256_accepted :
    ∃ spec, (NewBenchmark (some sampleConfig) [some (.WithQoS 256)]).result = .ok spec ∧
      spec.qos = 0 :=
  ⟨_, rfl, rfl⟩

/-! ## Options and the fields they write -/

theorem apply_sameAt (o : BenchOption) (f : Field) (h : o.field ≠ f) (s : BuildState) :
    (o.apply s).sameAt f s := by
  cases o <;> cases f <;>
    first
      | exact absurd rfl h
      | (simp only [BenchOption.apply, BuildState.sameAt]; split <;> simp)
      | simp [BenchOption.apply, BuildState.sameAt]

theorem sameAt_trans (f : Field) (s t u : BuildState) (h1 : s.sameAt f t) (h2 : t.sameAt f u) :
    s.sameAt f u := by
  cases f <;> simp only [BuildState.sameAt] at * <;>
    first
      | exact h1.trans h2
      | exact ⟨h1.1.trans h2.1, h1.2.trans h2.2⟩

theorem applyOptions_nil (s : BuildState) : applyOptions s [] = s := rfl

theorem applyOptions_cons (s : BuildState) (o : Option BenchOption)
    (os : List (Option BenchOption)) :
    applyOptions s (o :: os) =
      applyOptions (match o with | some w => w.apply s | none => s) os := rfl

theorem applyOptions_append (s : BuildState) (xs ys : List (Option BenchOption)) :
    applyOptions s (xs ++ ys) = applyOptions (applyOptions s xs) ys := by
  simp [applyOptions, List.foldl_append]

theorem applyOptions_sameAt (f : Field) (options : List (Option BenchOption)) :
    ∀ s : BuildState, (∀ o, some o ∈ options → o.field ≠ f) →
      (applyOptions s options).sameAt f s := by
  induction options with
  | nil => intro s _; cases f <;> simp [applyOptions_nil, BuildState.sameAt]
  | cons o os ih =>
    intro s h
    rw [applyOptions_cons]
    have hos : ∀ w, some w ∈ os → w.field ≠ f := fun w hw => h w (List.mem_cons_of_mem _ hw)
    cases o with
    | none => exact ih s hos
    | some w =>
      exact sameAt_trans f _ _ _ (ih _ hos) (apply_sameAt w f (h w (List.mem_cons_self _ _)) s)

theorem initial_linked (c : Config) :
    BuildState.linked { cfg := c, bench := initialBench c } := by
  simp [BuildState.linked, initialBench]

theorem apply_linked (o : BenchOption) (s : BuildState) (h : s.linked) :
    (o.apply s).linked := by
  obtain ⟨h1, h2, h3, h4⟩ := h
  cases o <;> simp [BenchOption.apply, BuildState.linked, h1, h2, h3, h4]

theorem applyOptions_linked (options : List (Option BenchOption)) :
    ∀ s : BuildState, s.linked → (applyOptions s options).linked := by
  induction options with
  | nil => intro s h; exact h
  | cons o os ih =>
    intro s h
    rw [applyOptions_cons]
    cases o with
    | none => exact ih s h
    | some w => exact ih _ (apply_linked w s h)

theorem validate_ok (b spec : Bench) (h : b.validate = .ok spec) :
    spec = b.applyDefaults := by
  unfold Bench.validate at h
  split_ifs at h
  injection h with h
  exact h.symm

/-! ## Construction: defaults -/

/-- C4: the code at the failing input. From a base configuration whose
`Client.CleanSession` is false and no options at all, `NewBenchmark` succeeds,
leaves the configuration as it was, and the effective cleanSession of the
spec, read through its pointer, is false: the `Bench` literal stores
`&cfg.Client.CleanSession`, so the branch of `validate` that would default a
nil pointer to true is never taken and `DefaultCleanSession` is never used. -/
theorem C4_base_false_gives_false :
    ∃ spec, (NewBenchmark (some persistentConfig) []).result = .ok spec ∧
      (NewBenchmark (some persistentConfig) []).cfg = some persistentConfig ∧
      spec.cleanSession.deref persistentConfig = some false :=
  ⟨_, rfl, rfl, rfl⟩

/-- C5: on every successful `NewBenchmark` call the returned spec is the
`Bench` as the options left it, except that an empty clientID is replaced by
`"benchmq-client"` and a keepAlive of 0 by 60; a non-empty clientID, a
non-zero keepAlive and every other field are returned unchanged. -/
theorem C5_only_clientID_and_keepAlive_default (c : Config)
    (options : List (Option BenchOption)) (spec : Bench)
    (hok : (NewBenchmark (some c) options).result = .ok spec) :
    spec =
      { benchAfterOptions c options with
        clientID :=
          if (benchAfterOptions c options).clientID = "" then "benchmq-client"
          else (benchAfterOptions c options).clientID
        keepAlive :=
          if (benchAfterOptions c options).keepAlive = 0 then 60
          else (benchAfterOptions c options).keepAlive } := by
  have hspec := validate_ok _ _ hok
  have hl := applyOptions_linked options _ (initial_linked c)
  rw [hspec]
  show (benchAfterOptions c options).applyDefaults = _
  have hns : (benchAfterOptions c options).cleanSession ≠ BoolPtr.null := hl.2.1
  simp [Bench.applyDefaults, hns, DefaultClientID, DefaultKeepAlive]

theorem C5_only_clientID_and_keepAlive_default_witness :
    ({ (initialBench sampleConfig) with clientID := "benchmq-client", keepAlive := 60 } : Bench) =
      { benchAfterOptions sampleConfig [some (.WithClientID ""), some (.WithKeepAlive 0)] with
        clientID :=
          if (benchAfterOptions sampleConfig
              [some (.WithClientID ""), some (.WithKeepAlive 0)]).clientID = ""
          then "benchmq-client"
          else (benchAfterOptions sampleConfig
              [some (.WithClientID ""), some (.WithKeepAlive 0)]).clientID
        keepAlive :=
          if (benchAfterOptions sampleConfig
              [some (.WithClientID ""), some (.WithKeepAlive 0)]).keepAlive = 0
          then 60
          else (benchAfterOptions sampleConfig
              [some (.WithClientID ""), some (.WithKeepAlive 0)]).keepAlive } :=
  C5_only_clientID_and_keepAlive_default sampleConfig
    [some (.WithClientID ""), some (.WithKeepAlive 0)] _ rfl

/-! ## Construction: order of the options -/

theorem apply_apply_same_field (o₁ o₂ : BenchOption) (h : o₁.field = o₂.field)
    (s : BuildState) : o₂.apply (o₁.apply s) = o₂.apply s := by
  rcases s with ⟨cfg, ⟨d, cl, id, t, m, mc, r, cs, q, ka, ho, p, u, pw, ptr⟩⟩
  cases o₁ <;> cases o₂ <;>
    first
      | (simp [BenchOption.field] at h; done)
      | (cases ptr <;> simp [BenchOption.apply])

theorem keepsBaseValue_of_untouched (c : Config) (options : List (Option BenchOption))
    (f : Field) (spec : Bench)
    (hno : ∀ o, some o ∈ options → o.field ≠ f)
    (hok : (NewBenchmark (some c) options).result = .ok spec) :
    keepsBaseValue f c (NewBenchmark (some c) options) spec := by
  have hsame := applyOptions_sameAt f options { cfg := c, bench := initialBench c } hno
  have hspec := validate_ok _ _ hok
  subst hspec
  cases f <;> simp only [BuildState.sameAt] at hsame <;>
    simp only [keepsBaseValue, NewBenchmark, Bench.applyDefaults]
  case clientID => rw [hsame]; simp [initialBench, DefaultClientID]
  case keepAlive => rw [hsame.1]; simp [initialBench, DefaultKeepAlive]
  case cleanSession =>
    rw [hsame.1]
    simp only [initialBench, BoolPtr.deref, reduceCtorEq, if_false]
    exact congrArg some hsame.2
  case host => exact hsame.1
  case port => exact hsame.1
  all_goals (rw [hsame]; rfl)

/-- C6: `NewBenchmark` applies its options in argument order, last writer
wins: after any option list, two overrides of the same field in a row give
the same outcome (returned pair and base configuration) as the second alone;
a nil option anywhere in the list changes nothing; and a field no option
writes has, in the returned spec, its built-in default or the value of the
base configuration. -/
theorem C6_last_writer_wins :
    (∀ (c : Config) (options : List (Option BenchOption)) (o₁ o₂ : BenchOption),
      o₁.field = o₂.field →
      NewBenchmark (some c) (options ++ [some o₁, some o₂]) =
        NewBenchmark (some c) (options ++ [some o₂])) ∧
    (∀ (c : Config) (xs ys : List (Option BenchOption)),
      NewBenchmark (some c) (xs ++ none :: ys) = NewBenchmark (some c) (xs ++ ys)) ∧
    (∀ (c : Config) (options : List (Option BenchOption)) (f : Field) (spec : Bench),
      (∀ o, some o ∈ options → o.field ≠ f) →
      (NewBenchmark (some c) options).result = .ok spec →
      keepsBaseValue f c (NewBenchmark (some c) options) spec) := by
  refine ⟨?_, ?_, keepsBaseValue_of_untouched⟩
  · intro c options o₁ o₂ h
    simp only [NewBenchmark, applyOptions_append, applyOptions_cons, applyOptions_nil,
      apply_apply_same_field o₁ o₂ h]
  · intro c xs ys
    simp only [NewBenchmark, applyOptions_append, applyOptions_cons]

theorem C6_last_writer_wins_witness :
    NewBenchmark (some sampleConfig)
        ([none, some (.WithClients 3)] ++ [some (.WithHost "a"), some (.WithHost "b")]) =
      NewBenchmark (some sampleConfig) ([none, some (.WithClients 3)] ++ [some (.WithHost "b")]) ∧
    keepsBaseValue .topic sampleConfig
      (NewBenchmark (some sampleConfig) [none, some (.WithClients 3)])
      { initialBench sampleConfig with clients := 3 } :=
  ⟨C6_last_writer_wins.1 sampleConfig [none, some (.WithClients 3)]
      (.WithHost "a") (.WithHost "b") rfl,
   C6_last_writer_wins.2.2 sampleConfig [none, some (.WithClients 3)] .topic
      { initialBench sampleConfig with clients := 3 }
      (by intro o ho; simp at ho; subst ho; simp [BenchOption.field]) rfl⟩

/-! ## Workers: the session configuration -/

theorem built_linked (c : Config) (options : List (Option BenchOption)) (b : Bench)
    (hb : (NewBenchmark (some c) options).result = .ok b) :
    b.cfg = ConfigPtr.base ∧ b.cleanSession ≠ BoolPtr.null ∧ 0 < b.clients ∧ 0 ≤ b.delay := by
  have hspec := validate_ok _ _ hb
  have hl := applyOptions_linked options _ (initial_linked c)
  have hv : ¬ (benchAfterOptions c options).violates := (validate_ok_iff _).mp ⟨b, hb⟩
  simp only [Bench.violates, not_or, not_le, not_lt] at hv
  subst hspec
  refine ⟨hl.1, ?_, hv.1, hv.2.1⟩
  simp only [Bench.applyDefaults]
  split_ifs
  · simp
  · exact hl.2.1

theorem built_host_port (c : Config) (options : List (Option BenchOption)) (b : Bench)
    (base : Config)
    (hb : NewBenchmark (some c) options = { cfg := some base, result := .ok b }) :
    b.host = base.Server.Host ∧ b.port = base.Server.Port := by
  have hres : (NewBenchmark (some c) options).result = .ok b := by rw [hb]
  have hcfg : (NewBenchmark (some c) options).cfg = some base := by rw [hb]
  have hspec := validate_ok _ _ hres
  have hl := applyOptions_linked options _ (initial_linked c)
  simp only [NewBenchmark, Option.some.injEq] at hcfg
  subst hspec hcfg
  exact ⟨hl.2.2.1, hl.2.2.2⟩

theorem sessionConfig_of_linked (b : Bench) (now : Config) (i : Nat)
    (h1 : b.cfg = ConfigPtr.base) (h2 : b.cleanSession ≠ BoolPtr.null) :
    ∃ cs, b.cleanSession.deref now = some cs ∧
      b.sessionConfig now (workerClientID b.clientID i) =
        some (expectedSession b cs now.Server i) := by
  cases hcs : b.cleanSession with
  | null => exact absurd hcs h2
  | cfgCleanSession =>
    exact ⟨now.Client.CleanSession, rfl, by
      simp [Bench.sessionConfig, h1, hcs, BoolPtr.deref, expectedSession, workerClientID]; rfl⟩
  | captured v =>
    exact ⟨v, rfl, by
      simp [Bench.sessionConfig, h1, hcs, BoolPtr.deref, expectedSession, workerClientID]; rfl⟩

/-- C7 (the claim fails): a spec is built from `sampleConfig`, host
`"localhost"`; a second `NewBenchmark` on the same configuration object with
`WithHost("other")` then rewrites the object, and worker 0 of the first spec
is handed a session configuration with host `"other"`, not the spec's own
host. -/
theorem C7_session_host_follows_base :
    ∃ b base₁ base₂ cfg',
      NewBenchmark (some sampleConfig) [] = { cfg := some base₁, result := .ok b } ∧
      (NewBenchmark (some base₁) [some (.WithHost "other")]).cfg = some base₂ ∧
      clientConfig (RunConnections.worker b base₂ alwaysDelivers 0) = some cfg' ∧
      cfg'.Server.Host = "other" ∧ b.host = "localhost" :=
  ⟨_, _, _, _, rfl, rfl, rfl, rfl, rfl⟩

/-- C7 (amended): for a spec `b` built by `NewBenchmark`, whatever the base
configuration holds when the workers run (`now`), in each of the three
runners worker `i` hands `mqtt.NewClient` a configuration whose clientID is
the spec's clientID, `"-"` and the decimal rendering of `i`, whose keepAlive,
username and password are the spec's own, whose cleanSession is the spec's
effective cleanSession, and whose host and port are those the base
configuration holds at that moment; these are the spec's own host and port
when the server section is still what the build left (`base`). -/
theorem C7_session_config (c : Config) (options : List (Option BenchOption)) (b : Bench)
    (base : Config)
    (hb : NewBenchmark (some c) options = { cfg := some base, result := .ok b })
    (now : Config) (cap : Capability) (i : Nat) :
    (∃ cs, b.cleanSession.deref now = some cs ∧
      clientConfig (RunConnections.worker b now cap i) =
        some (expectedSession b cs now.Server i) ∧
      clientConfig (PublishMessages.worker b now cap i) =
        some (expectedSession b cs now.Server i) ∧
      clientConfig (Subscribe.worker b now cap i) =
        some (expectedSession b cs now.Server i)) ∧
    (now.Server = base.Server → now.Server.Host = b.host ∧ now.Server.Port = b.port) := by
  have hres : (NewBenchmark (some c) options).result = .ok b := by rw [hb]
  obtain ⟨h1, h2, -, -⟩ := built_linked c options b hres
  obtain ⟨hh, hp⟩ := built_host_port c options b base hb
  obtain ⟨cs, hcs, hsess⟩ := sessionConfig_of_linked b now i h1 h2
  refine ⟨⟨cs, hcs, ?_, ?_, ?_⟩, fun hs => by rw [hs]; exact ⟨hh.symm, hp.symm⟩⟩
  · simp [RunConnections.worker, hsess, clientConfig]
  · simp [PublishMessages.worker, hsess, clientConfig]
  · simp [Subscribe.worker, hsess, clientConfig]

theorem C7_session_config_witness :
    (∃ cs, (initialBench sampleConfig).applyDefaults.cleanSession.deref sampleConfig = some cs ∧
      clientConfig (RunConnections.worker (initialBench sampleConfig).applyDefaults
          sampleConfig neverConnects 4) =
        some (expectedSession (initialBench sampleConfig).applyDefaults cs sampleConfig.Server 4) ∧
      clientConfig (PublishMessages.worker (initialBench sampleConfig).applyDefaults
          sampleConfig neverConnects 4) =
        some (expectedSession (initialBench sampleConfig).applyDefaults cs sampleConfig.Server 4) ∧
      clientConfig (Subscribe.worker (initialBench sampleConfig).applyDefaults
          sampleConfig neverConnects 4) =
        some (expectedSession (initialBench sampleConfig).applyDefaults cs
          sampleConfig.Server 4)) ∧
    (sampleConfig.Server = sampleConfig.Server →
      sampleConfig.Server.Host = (initialBench sampleConfig).applyDefaults.host ∧
      sampleConfig.Server.Port = (initialBench sampleConfig).applyDefaults.port) :=
  C7_session_config sampleConfig [] (initialBench sampleConfig).applyDefaults sampleConfig rfl
    sampleConfig neverConnects 4

/-! ## Workers: client identifiers -/

theorem digitChar_value (k : Nat) (h : k < 10) : (Nat.digitChar k).toNat - 48 = k := by
  interval_cases k <;> rfl

theorem digitsValue_snoc (xs : List Char) (ch : Char) :
    digitsValue (xs ++ [ch]) = 10 * digitsValue xs + (ch.toNat - 48) := by
  simp [digitsValue, List.foldl_append]

theorem toDigitsCore_value (fuel : Nat) :
    ∀ (n : Nat) (ds : List Char), n < fuel →
      ∃ xs, Nat.toDigitsCore 10 fuel n ds = xs ++ ds ∧ digitsValue xs = n := by
  induction fuel with
  | zero => intro n ds h; omega
  | succ fuel ih =>
    intro n ds h
    simp only [Nat.toDigitsCore]
    by_cases h0 : n / 10 = 0
    · simp only [h0, if_true]
      refine ⟨[Nat.digitChar (n % 10)], rfl, ?_⟩
      have hone : digitsValue [Nat.digitChar (n % 10)] =
          (Nat.digitChar (n % 10)).toNat - 48 := by
        simp [digitsValue]
      rw [hone, digitChar_value _ (Nat.mod_lt _ (by decide))]
      omega
    · simp only [h0, if_false]
      obtain ⟨xs, hxs, hv⟩ := ih (n / 10) (Nat.digitChar (n % 10) :: ds) (by omega)
      refine ⟨xs ++ [Nat.digitChar (n % 10)], by simp [hxs], ?_⟩
      rw [digitsValue_snoc, hv, digitChar_value _ (Nat.mod_lt _ (by decide))]
      omega

theorem digitsValue_repr (n : Nat) : digitsValue (Nat.repr n).data = n := by
  obtain ⟨xs, hxs, hv⟩ := toDigitsCore_value (n + 1) n [] (Nat.lt_succ_self n)
  simp only [Nat.repr, Nat.toDigits, List.asString, hxs, List.append_nil]
  exact hv

theorem repr_injective (a b : Nat) (h : Nat.repr a = Nat.repr b) : a = b := by
  rw [← digitsValue_repr a, ← digitsValue_repr b, h]

/-- C8: worker client IDs are unique within a run: for every clientID of the
spec and every two different worker indices (natural numbers, so in
particular below `clients`), the identifiers `fmt.Sprintf("%s-%d", clientID, i)`
and `fmt.Sprintf("%s-%d", clientID, j)` are different strings. -/
theorem C8_worker_ids_unique (clientID : String) (i j : Nat) (h : i ≠ j) :
    workerClientID clientID i ≠ workerClientID clientID j := by
  intro heq
  have hdata := congrArg String.data heq
  simp only [workerClientID, String.data_append, List.append_assoc] at hdata
  have hs : toString ((i : Nat) : Int) = toString ((j : Nat) : Int) :=
    String.ext (List.append_cancel_left (List.append_cancel_left hdata))
  exact h (repr_injective i j hs)

theorem C8_worker_ids_unique_witness :
    workerClientID "benchmq-client" 1 ≠ workerClientID "benchmq-client" 10 :=
  C8_worker_ids_unique "benchmq-client" 1 10 (by decide)

/-! ## The connection runner: launch order and stagger -/

theorem launched_loop (d : Int) (n : Nat) :
    launched ((List.range n).flatMap
      (fun i => [LaunchEvent.wgAdd 1, .go (i : Int), .sleep d])) =
    (List.range n).map Int.ofNat := by
  induction n with
  | zero => rfl
  | succ n ih =>
    rw [List.range_succ, List.flatMap_append, List.map_append]
    unfold launched at ih ⊢
    rw [List.filterMap_append, ih]
    rfl

theorem launchSleepNs_append (xs ys : List LaunchEvent) :
    launchSleepNs (xs ++ ys) = launchSleepNs xs + launchSleepNs ys := by
  simp [launchSleepNs]

theorem launchSleepNs_loop (d : Int) (n : Nat) :
    launchSleepNs ((List.range n).flatMap
      (fun i => [LaunchEvent.wgAdd 1, .go (i : Int), .sleep d])) = n * sleptNs d := by
  induction n with
  | zero => simp [launchSleepNs]
  | succ n ih =>
    rw [List.range_succ, List.flatMap_append, launchSleepNs_append, ih]
    simp [launchSleepNs]
    ring

theorem wrapInt64_of_fits (x : Int) (h1 : -9223372036854775808 ≤ x)
    (h2 : x < 9223372036854775808) : wrapInt64 x = x := by
  unfold wrapInt64
  norm_num
  omega

theorem wrapInt32_of_fits (x : Int) (h1 : -2147483648 ≤ x) (h2 : x < 2147483648) :
    wrapInt32 x = x := by
  unfold wrapInt32
  norm_num
  omega

/-- C9 (the claim fails): a spec with clients 1 and delay 9223372036855 is
built; its one launch is followed by `time.Sleep` of a negative duration,
because `time.Duration(delay) * time.Millisecond` exceeds 64 bits, so the
launching goroutine sleeps 0 ns and not 1 * 9223372036855 ms. -/
theorem C9_huge_delay_sleeps_nothing :
    ∃ b, (NewBenchmark (some sampleConfig)
        [some (.WithClients 1), some (.WithDelay 9223372036855)]).result = .ok b ∧
      RunConnections.launch b =
        [.wgAdd 1, .go 0, .sleep (-9223372036854551616), .wgWait, .logFinished] ∧
      launchSleepNs (RunConnections.launch b) = 0 :=
  ⟨_, rfl, rfl, rfl⟩

/-- C9 (amended): for every built spec with clients = N and delay = D where
D is at most 9223372036854 (D milliseconds fit a 64-bit nanosecond duration),
the launch loop of `RunConnections` consists of N rounds "add to the wait
group, start worker i, sleep D ms" for i = 0, 1, ..., N-1 in this order, the
last launch included; the workers started are exactly 0, ..., N-1 in
increasing order, and the launching goroutine sleeps N*D ms in total, which
is at least (N-1)*D ms. -/
theorem C9_launch_order_and_stagger (c : Config) (options : List (Option BenchOption))
    (b : Bench) (hb : (NewBenchmark (some c) options).result = .ok b)
    (hD : b.delay ≤ 9223372036854) :
    RunConnections.launch b =
      (List.range b.clients.toNat).flatMap
        (fun i => [LaunchEvent.wgAdd 1, .go (i : Int), .sleep (b.delay * 1000000)]) ++
      [.wgWait, .logFinished] ∧
    (b.clients.toNat : Int) = b.clients ∧
    launched (RunConnections.launch b) = (List.range b.clients.toNat).map Int.ofNat ∧
    (launched (RunConnections.launch b)).length = b.clients ∧
    launchSleepNs (RunConnections.launch b) = b.clients * b.delay * 1000000 ∧
    (b.clients - 1) * b.delay * 1000000 ≤ launchSleepNs (RunConnections.launch b) := by
  obtain ⟨-, -, hN, hD0⟩ := built_linked c options b hb
  have hcast : (b.clients.toNat : Int) = b.clients := Int.toNat_of_nonneg (le_of_lt hN)
  have hwrap : wrapInt64 (b.delay * Millisecond) = b.delay * 1000000 := by
    unfold Millisecond
    exact wrapInt64_of_fits _ (by omega) (by omega)
  have hlaunch : RunConnections.launch b =
      (List.range b.clients.toNat).flatMap
        (fun i => [LaunchEvent.wgAdd 1, .go (i : Int), .sleep (b.delay * 1000000)]) ++
      [.wgWait, .logFinished] := by
    unfold RunConnections.launch
    rw [hwrap]
  have hl : launched (RunConnections.launch b) =
      (List.range b.clients.toNat).map Int.ofNat := by
    rw [hlaunch]
    unfold launched
    rw [List.filterMap_append]
    have := launched_loop (b.delay * 1000000) b.clients.toNat
    unfold launched at this
    rw [this]
    simp
  have hs : launchSleepNs (RunConnections.launch b) = b.clients * b.delay * 1000000 := by
    rw [hlaunch, launchSleepNs_append, launchSleepNs_loop, hcast]
    have h0 : sleptNs (b.delay * 1000000) = b.delay * 1000000 := by
      unfold sleptNs
      exact max_eq_left (by omega)
    rw [h0]
    simp [launchSleepNs]
    ring
  refine ⟨hlaunch, hcast, hl, ?_, hs, ?_⟩
  · rw [hl]
    simp [hcast]
  · rw [hs]
    nlinarith

theorem C9_launch_order_and_stagger_witness :
    RunConnections.launch
        { (initialBench sampleConfig).applyDefaults with clients := 2, delay := 100 } =
      (List.range (2 : Int).toNat).flatMap
        (fun i => [LaunchEvent.wgAdd 1, .go (i : Int), .sleep ((100 : Int) * 1000000)]) ++
      [.wgWait, .logFinished] ∧
    ((2 : Int).toNat : Int) = 2 ∧
    launched (RunConnections.launch
        { (initialBench sampleConfig).applyDefaults with clients := 2, delay := 100 }) =
      (List.range (2 : Int).toNat).map Int.ofNat ∧
    (launched (RunConnections.launch
        { (initialBench sampleConfig).applyDefaults with clients := 2, delay := 100 })).length =
      (2 : Int) ∧
    launchSleepNs (RunConnections.launch
        { (initialBench sampleConfig).applyDefaults with clients := 2, delay := 100 }) =
      (2 : Int) * 100 * 1000000 ∧
    ((2 : Int) - 1) * 100 * 1000000 ≤ launchSleepNs (RunConnections.launch
        { (initialBench sampleConfig).applyDefaults with clients := 2, delay := 100 }) :=
  C9_launch_order_and_stagger sampleConfig [some (.WithClients 2), some (.WithDelay 100)]
    { (initialBench sampleConfig).applyDefaults with clients := 2, delay := 100 } rfl
    (by decide)

/-! ## The publish runner: totals when no worker connects -/

theorem publish_worker_connect_fails (b : Bench) (now : Config) (cap : Capability) (i : Nat)
    (h1 : b.cfg = ConfigPtr.base) (h2 : b.cleanSession ≠ BoolPtr.null)
    (hf : cap.connectFails i = true) :
    ∃ cfg, PublishMessages.worker b now cap i =
      [.newClient cfg, .connect, .addFailed (wrapInt32 b.messageCount),
       .logError "couldn't establish client", .wgDone] := by
  obtain ⟨cs, -, hsess⟩ := sessionConfig_of_linked b now i h1 h2
  exact ⟨expectedSession b cs now.Server i, by simp [PublishMessages.worker, hsess, hf]⟩

theorem wrapInt32_add (x y : Int) :
    wrapInt32 (wrapInt32 x + wrapInt32 y) = wrapInt32 (x + y) := by
  unfold wrapInt32
  norm_num
  omega

theorem failed32_all_fail (b : Bench) (now : Config) (cap : Capability)
    (h1 : b.cfg = ConfigPtr.base) (h2 : b.cleanSession ≠ BoolPtr.null)
    (l : List Nat) (hf : ∀ i ∈ l, cap.connectFails i = true) :
    ∀ acc : Int,
      (l.flatMap (PublishMessages.worker b now cap)).foldl
        (fun acc e => match e with | .addFailed d => wrapInt32 (acc + d) | _ => acc)
        (wrapInt32 acc) =
      wrapInt32 (acc + l.length * b.messageCount) := by
  induction l with
  | nil => intro acc; simp
  | cons i l ih =>
    intro acc
    obtain ⟨cfg, hw⟩ :=
      publish_worker_connect_fails b now cap i h1 h2 (hf i (List.mem_cons_self _ _))
    rw [List.flatMap_cons, List.foldl_append, hw]
    simp only [List.foldl_cons, List.foldl_nil]
    rw [wrapInt32_add, ih (fun j hj => hf j (List.mem_cons_of_mem _ hj))]
    congr 1
    push_cast [List.length_cons]
    ring

theorem succeeded32_all_fail (b : Bench) (now : Config) (cap : Capability)
    (h1 : b.cfg = ConfigPtr.base) (h2 : b.cleanSession ≠ BoolPtr.null)
    (l : List Nat) (hf : ∀ i ∈ l, cap.connectFails i = true) :
    succeeded32 (l.flatMap (PublishMessages.worker b now cap)) = 0 := by
  unfold succeeded32
  induction l with
  | nil => rfl
  | cons i l ih =>
    obtain ⟨cfg, hw⟩ :=
      publish_worker_connect_fails b now cap i h1 h2 (hf i (List.mem_cons_self _ _))
    rw [List.flatMap_cons, List.foldl_append, hw]
    exact ih (fun j hj => hf j (List.mem_cons_of_mem _ hj))

theorem no_publish_all_fail (b : Bench) (now : Config) (cap : Capability)
    (h1 : b.cfg = ConfigPtr.base) (h2 : b.cleanSession ≠ BoolPtr.null)
    (l : List Nat) (hf : ∀ i ∈ l, cap.connectFails i = true) :
    ∀ e ∈ l.flatMap (PublishMessages.worker b now cap), e.isPublish = false := by
  intro e he
  obtain ⟨i, hi, hei⟩ := List.mem_flatMap.mp he
  obtain ⟨cfg, hw⟩ := publish_worker_connect_fails b now cap i h1 h2 (hf i hi)
  rw [hw] at hei
  simp only [List.mem_cons, List.mem_singleton, List.not_mem_nil, or_false] at hei
  rcases hei with h | h | h | h | h <;> subst h <;> rfl

/-- C10 (the claim fails): a spec with clients 1 and messageCount 2147483648
is built; when the one connect fails the worker adds `int32(messageCount)` to
the 32-bit counter, and the summary reports failed = -2147483648 while the
total intended messages are 1 * 2147483648. -/
theorem C10_failed_counter_wraps :
    ∃ b, (NewBenchmark (some sampleConfig)
        [some (.WithClients 1), some (.WithMessageCount 2147483648)]).result = .ok b ∧
      (PublishMessages b sampleConfig neverConnects).totalMessages = 2147483648 ∧
      (PublishMessages b sampleConfig neverConnects).failed = -2147483648 :=
  ⟨_, rfl, rfl, rfl⟩

/-- C10 (amended): for every built spec with clients = N and messageCount = M,
`PublishMessages` reports total intended messages N*M whenever N*M fits the
64-bit `int`; and if the connect of every worker 0, ..., N-1 fails, no worker
attempts a publish, the reported succeeded counter is 0, and the reported
failed counter is N*M whenever N*M fits the 32-bit counter
(-2147483648 <= N*M < 2147483648). -/
theorem C10_publish_all_connects_fail (c : Config) (options : List (Option BenchOption))
    (b : Bench) (hb : (NewBenchmark (some c) options).result = .ok b)
    (now : Config) (cap : Capability) :
    (-9223372036854775808 ≤ b.clients * b.messageCount →
      b.clients * b.messageCount < 9223372036854775808 →
      (PublishMessages b now cap).totalMessages = b.clients * b.messageCount) ∧
    ((∀ i : Nat, (i : Int) < b.clients → cap.connectFails i = true) →
      (∀ e ∈ PublishMessages.events b now cap, e.isPublish = false) ∧
      (PublishMessages b now cap).successful = 0 ∧
      (-2147483648 ≤ b.clients * b.messageCount →
        b.clients * b.messageCount < 2147483648 →
        (PublishMessages b now cap).failed = b.clients * b.messageCount)) := by
  obtain ⟨h1, h2, hN, -⟩ := built_linked c options b hb
  have hcast : (b.clients.toNat : Int) = b.clients := Int.toNat_of_nonneg (le_of_lt hN)
  refine ⟨fun hlo hhi => wrapInt64_of_fits _ hlo hhi, fun hf => ?_⟩
  have hf' : ∀ i ∈ List.range b.clients.toNat, cap.connectFails i = true := by
    intro i hi
    apply hf
    rw [← hcast]
    exact_mod_cast List.mem_range.mp hi
  refine ⟨no_publish_all_fail b now cap h1 h2 _ hf',
    succeeded32_all_fail b now cap h1 h2 _ hf', fun hlo hhi => ?_⟩
  have h := failed32_all_fail b now cap h1 h2 _ hf' 0
  have h0 : wrapInt32 0 = 0 := by decide
  rw [h0, List.length_range, hcast, zero_add] at h
  show failed32 (PublishMessages.events b now cap) = _
  unfold failed32 PublishMessages.events
  rw [h]
  exact wrapInt32_of_fits _ hlo hhi

theorem C10_publish_all_connects_fail_witness :
    (PublishMessages { (initialBench sampleConfig).applyDefaults with
        clients := 3, delay := 0, messageCount := 2 } sampleConfig neverConnects).totalMessages =
      6 ∧
    (PublishMessages { (initialBench sampleConfig).applyDefaults with
        clients := 3, delay := 0, messageCount := 2 } sampleConfig neverConnects).successful =
      0 ∧
    (PublishMessages { (initialBench sampleConfig).applyDefaults with
        clients := 3, delay := 0, messageCount := 2 } sampleConfig neverConnects).failed = 6 :=
  have h := C10_publish_all_connects_fail sampleConfig
    [some (.WithClients 3), some (.WithDelay 0), some (.WithMessageCount 2)]
    { (initialBench sampleConfig).applyDefaults with
        clients := 3, delay := 0, messageCount := 2 } rfl sampleConfig neverConnects
  ⟨h.1 (by decide) (by decide), (h.2 (fun _ _ => rfl)).2.1,
    (h.2 (fun _ _ => rfl)).2.2 (by decide) (by decide)⟩

/-! ## The publish runner: every intended message counted once -/

theorem wrapInt32_add_left (a d : Int) : wrapInt32 (wrapInt32 a + d) = wrapInt32 (a + d) := by
  unfold wrapInt32
  norm_num
  omega

theorem failed32_fold (evs : List Event) :
    ∀ acc : Int,
      evs.foldl (fun acc e => match e with | .addFailed d => wrapInt32 (acc + d) | _ => acc)
        (wrapInt32 acc) = wrapInt32 (acc + sumFailed evs) := by
  induction evs with
  | nil => intro acc; simp [sumFailed]
  | cons e es ih =>
    intro acc
    have hs : sumFailed (e :: es) =
        (match e with | .addFailed d => d | _ => 0) + sumFailed es := by
      simp [sumFailed]
    cases e <;> simp only [List.foldl_cons, hs] <;>
      first
        | (rw [wrapInt32_add_left, ih]; congr 1; ring)
        | (rw [ih]; congr 1; ring)

theorem succeeded32_fold (evs : List Event) :
    ∀ acc : Int,
      evs.foldl (fun acc e => match e with | .addSucceeded d => wrapInt32 (acc + d) | _ => acc)
        (wrapInt32 acc) = wrapInt32 (acc + sumSucceeded evs) := by
  induction evs with
  | nil => intro acc; simp [sumSucceeded]
  | cons e es ih =>
    intro acc
    have hs : sumSucceeded (e :: es) =
        (match e with | .addSucceeded d => d | _ => 0) + sumSucceeded es := by
      simp [sumSucceeded]
    cases e <;> simp only [List.foldl_cons, hs] <;>
      first
        | (rw [wrapInt32_add_left, ih]; congr 1; ring)
        | (rw [ih]; congr 1; ring)

theorem failed32_eq (evs : List Event) : failed32 evs = wrapInt32 (sumFailed evs) := by
  have h := failed32_fold evs 0
  have h0 : wrapInt32 0 = 0 := by decide
  rw [h0, zero_add] at h
  exact h

theorem succeeded32_eq (evs : List Event) : succeeded32 evs = wrapInt32 (sumSucceeded evs) := by
  have h := succeeded32_fold evs 0
  have h0 : wrapInt32 0 = 0 := by decide
  rw [h0, zero_add] at h
  exact h

theorem sumFailed_append (xs ys : List Event) :
    sumFailed (xs ++ ys) = sumFailed xs + sumFailed ys := by
  simp [sumFailed]

theorem sumSucceeded_append (xs ys : List Event) :
    sumSucceeded (xs ++ ys) = sumSucceeded xs + sumSucceeded ys := by
  simp [sumSucceeded]

theorem publishAttempts_append (xs ys : List Event) :
    publishAttempts (xs ++ ys) = publishAttempts xs + publishAttempts ys := by
  simp [publishAttempts]

theorem sumSucceeded_callbacks (id : String) (k : Nat) :
    sumSucceeded (List.replicate k [Event.addSucceeded 1, .logPublish id]).flatten = k := by
  induction k with
  | zero => simp [sumSucceeded]
  | succ k ih =>
    rw [List.replicate_succ, List.flatten_cons, sumSucceeded_append, ih]
    simp [sumSucceeded]
    ring

theorem sumFailed_callbacks (id : String) (k : Nat) :
    sumFailed (List.replicate k [Event.addSucceeded 1, .logPublish id]).flatten = 0 := by
  induction k with
  | zero => simp [sumFailed]
  | succ k ih =>
    rw [List.replicate_succ, List.flatten_cons, sumFailed_append, ih]
    simp [sumFailed]

theorem publishAttempts_callbacks (id : String) (k : Nat) :
    publishAttempts (List.replicate k [Event.addSucceeded 1, .logPublish id]).flatten = 0 := by
  induction k with
  | zero => simp [publishAttempts]
  | succ k ih =>
    rw [List.replicate_succ, List.flatten_cons, publishAttempts_append, ih]
    simp [publishAttempts, Event.isPublish]

theorem attempt_sums (b : Bench) (cap : Capability) (id : String) (i j : Nat) :
    sumSucceeded (PublishMessages.attempt b cap id i j) = cap.publishCallbacks i j ∧
    sumFailed (PublishMessages.attempt b cap id i j) = (if cap.publishFails i j then 1 else 0) ∧
    publishAttempts (PublishMessages.attempt b cap id i j) = 1 := by
  unfold PublishMessages.attempt
  simp only [sumSucceeded_append, sumFailed_append, publishAttempts_append,
    sumSucceeded_callbacks, sumFailed_callbacks, publishAttempts_callbacks]
  refine ⟨?_, ?_, ?_⟩
  · split_ifs <;> simp [sumSucceeded]
  · split_ifs <;> simp [sumFailed]
  · split_ifs <;> simp [publishAttempts, Event.isPublish]

theorem attempts_sums (b : Bench) (cap : Capability) (id : String) (i : Nat) (js : List Nat) :
    publishAttempts (js.flatMap (PublishMessages.attempt b cap id i)) = js.length ∧
    ((∀ j ∈ js, cap.exclusive i j) →
      sumSucceeded (js.flatMap (PublishMessages.attempt b cap id i)) +
        sumFailed (js.flatMap (PublishMessages.attempt b cap id i)) = js.length ∧
      0 ≤ sumSucceeded (js.flatMap (PublishMessages.attempt b cap id i)) ∧
      0 ≤ sumFailed (js.flatMap (PublishMessages.attempt b cap id i)) ∧
      ((∀ j ∈ js, cap.publishFails i j = false) →
        sumFailed (js.flatMap (PublishMessages.attempt b cap id i)) = 0)) := by
  induction js with
  | nil => simp [publishAttempts, sumSucceeded, sumFailed]
  | cons j js ih =>
    obtain ⟨hs, hf, hp⟩ := attempt_sums b cap id i j
    rw [List.flatMap_cons, publishAttempts_append, sumSucceeded_append, sumFailed_append,
      hs, hf, hp]
    refine ⟨by rw [ih.1, List.length_cons]; ring, fun hx => ?_⟩
    obtain ⟨h1, h2, h3, h4⟩ := ih.2 (fun k hk => hx k (List.mem_cons_of_mem _ hk))
    have hj := hx j (List.mem_cons_self _ _)
    refine ⟨?_, ?_, ?_, ?_⟩
    · rcases hj with ⟨ha, hb⟩ | ⟨ha, hb⟩ <;> simp only [ha, hb, List.length_cons] <;>
        push_cast <;> simp <;> linarith
    · have : (0 : Int) ≤ (cap.publishCallbacks i j : Int) := Int.ofNat_nonneg _
      linarith
    · split_ifs <;> linarith
    · intro hnf
      rw [h4 (fun k hk => hnf k (List.mem_cons_of_mem _ hk)), hnf j (List.mem_cons_self _ _)]
      simp

theorem publish_worker_connected (b : Bench) (now : Config) (cap : Capability) (i : Nat)
    (h1 : b.cfg = ConfigPtr.base) (h2 : b.cleanSession ≠ BoolPtr.null)
    (hc : cap.connectFails i = false) :
    ∃ cfg, PublishMessages.worker b now cap i =
      [.newClient cfg, .connect] ++
        ([.logClientConnection cfg.Client.ClientID] ++
          (List.range b.messageCount.toNat).flatMap
            (PublishMessages.attempt b cap (workerClientID b.clientID i) i) ++
          [.disconnect, .wgDone]) := by
  obtain ⟨cs, -, hsess⟩ := sessionConfig_of_linked b now i h1 h2
  exact ⟨expectedSession b cs now.Server i, by simp [PublishMessages.worker, hsess, hc]⟩

theorem publish_worker_attempts (b : Bench) (now : Config) (cap : Capability) (i : Nat)
    (h1 : b.cfg = ConfigPtr.base) (h2 : b.cleanSession ≠ BoolPtr.null)
    (hc : cap.connectFails i = false) :
    publishAttempts (PublishMessages.worker b now cap i) = b.messageCount.toNat := by
  obtain ⟨cfg, hw⟩ := publish_worker_connected b now cap i h1 h2 hc
  rw [hw]
  simp only [publishAttempts_append, (attempts_sums b cap _ i _).1, List.length_range]
  simp [publishAttempts, Event.isPublish]

theorem publish_worker_sums (b : Bench) (now : Config) (cap : Capability) (i : Nat)
    (h1 : b.cfg = ConfigPtr.base) (h2 : b.cleanSession ≠ BoolPtr.null)
    (hM : 0 ≤ b.messageCount) (hM2 : b.messageCount < 2147483648)
    (hx : ∀ j, cap.exclusive i j) :
    sumSucceeded (PublishMessages.worker b now cap i) +
      sumFailed (PublishMessages.worker b now cap i) = b.messageCount ∧
    0 ≤ sumSucceeded (PublishMessages.worker b now cap i) ∧
    0 ≤ sumFailed (PublishMessages.worker b now cap i) ∧
    (cap.connectFails i = false → (∀ j, cap.publishFails i j = false) →
      sumFailed (PublishMessages.worker b now cap i) = 0) := by
  cases hc : cap.connectFails i with
  | true =>
    obtain ⟨cfg, hw⟩ := publish_worker_connect_fails b now cap i h1 h2 hc
    rw [hw]
    have hwrap := wrapInt32_of_fits b.messageCount (by omega) hM2
    simp [sumSucceeded, sumFailed, hwrap, hM]
  | false =>
    obtain ⟨cfg, hw⟩ := publish_worker_connected b now cap i h1 h2 hc
    obtain ⟨h3, h4, h5, h6⟩ :=
      (attempts_sums b cap (workerClientID b.clientID i) i
        (List.range b.messageCount.toNat)).2 (fun j _ => hx j)
    rw [hw]
    simp only [sumSucceeded_append, sumFailed_append]
    have e1 : sumSucceeded [Event.newClient cfg, Event.connect] = 0 := by simp [sumSucceeded]
    have e2 : sumFailed [Event.newClient cfg, Event.connect] = 0 := by simp [sumFailed]
    have e3 : sumSucceeded [Event.logClientConnection cfg.Client.ClientID] = 0 := by
      simp [sumSucceeded]
    have e4 : sumFailed [Event.logClientConnection cfg.Client.ClientID] = 0 := by
      simp [sumFailed]
    have e5 : sumSucceeded [Event.disconnect, Event.wgDone] = 0 := by simp [sumSucceeded]
    have e6 : sumFailed [Event.disconnect, Event.wgDone] = 0 := by simp [sumFailed]
    rw [e1, e2, e3, e4, e5, e6]
    rw [List.length_range] at h3
    have hcast : (b.messageCount.toNat : Int) = b.messageCount := Int.toNat_of_nonneg hM
    refine ⟨by linarith, by linarith, by linarith, fun _ hnf => ?_⟩
    rw [h6 (fun j _ => hnf j)]
    simp

theorem publish_events_sums (b : Bench) (now : Config) (cap : Capability)
    (h1 : b.cfg = ConfigPtr.base) (h2 : b.cleanSession ≠ BoolPtr.null)
    (hM : 0 ≤ b.messageCount) (hM2 : b.messageCount < 2147483648)
    (hx : ∀ i j, cap.exclusive i j) (l : List Nat) :
    sumSucceeded (l.flatMap (PublishMessages.worker b now cap)) +
      sumFailed (l.flatMap (PublishMessages.worker b now cap)) = l.length * b.messageCount ∧
    0 ≤ sumSucceeded (l.flatMap (PublishMessages.worker b now cap)) ∧
    0 ≤ sumFailed (l.flatMap (PublishMessages.worker b now cap)) ∧
    ((∀ i, cap.connectFails i = false) → (∀ i j, cap.publishFails i j = false) →
      sumFailed (l.flatMap (PublishMessages.worker b now cap)) = 0) := by
  induction l with
  | nil => simp [sumSucceeded, sumFailed]
  | cons i l ih =>
    obtain ⟨a1, a2, a3, a4⟩ := publish_worker_sums b now cap i h1 h2 hM hM2 (hx i)
    obtain ⟨b1, b2, b3, b4⟩ := ih
    rw [List.flatMap_cons, sumSucceeded_append, sumFailed_append]
    refine ⟨?_, by linarith, by linarith, fun hc hnf => ?_⟩
    · rw [List.length_cons]
      push_cast
      linarith
    · rw [a4 (hc i) (hnf i), b4 hc hnf]
      simp

/-- C11 (the claim fails), in two ways. A spec with clients 1 and
messageCount -1 is built (messageCount is not validated); with a capability
that always connects and whose every publish is confirmed exactly once, in
time, the connected worker makes 0 publish attempts, not -1, and succeeded +
failed is 0, not 1 * (-1). And with clients 1 and messageCount 3, a
capability that keeps the contract (every publish returns no error and its
callback fires exactly once) but runs the third callback only after the
summary has been read reports succeeded 2 and failed 0, not 3 in total. -/
theorem C11_not_every_message_counted :
    (∃ b, (NewBenchmark (some sampleConfig)
        [some (.WithClients 1), some (.WithMessageCount (-1))]).result = .ok b ∧
      (∀ i j, alwaysDelivers.honours firesOnce i j) ∧
      (∀ i j, alwaysDelivers.settled firesOnce i j) ∧
      publishAttempts (PublishMessages.worker b sampleConfig alwaysDelivers 0) = 0 ∧
      (PublishMessages b sampleConfig alwaysDelivers).successful +
        (PublishMessages b sampleConfig alwaysDelivers).failed = 0 ∧
      b.clients * b.messageCount = -1) ∧
    (∃ b, (NewBenchmark (some sampleConfig)
        [some (.WithClients 1), some (.WithMessageCount 3)]).result = .ok b ∧
      (∀ i j, lateThird.honours firesOnce i j) ∧
      (∀ i j, lateThird.publishCallbacks i j ≤ firesOnce i j) ∧
      publishAttempts (PublishMessages.worker b sampleConfig lateThird 0) = 3 ∧
      (PublishMessages b sampleConfig lateThird).successful = 2 ∧
      (PublishMessages b sampleConfig lateThird).failed = 0 ∧
      b.clients * b.messageCount = 3) :=
  ⟨⟨_, rfl, fun _ _ => Or.inr ⟨rfl, rfl⟩, fun _ _ => rfl, rfl, rfl, rfl⟩,
   ⟨_, rfl, fun _ _ => Or.inr ⟨rfl, rfl⟩,
     fun _ j => by simp only [lateThird, firesOnce]; split_ifs <;> omega,
     rfl, rfl, rfl, rfl⟩⟩

/-- C11 (amended): for every built spec with clients = N and messageCount = M
where M >= 0 and N*M fits the 32-bit counters (N*M < 2147483648), and every
capability in which each publish call either returns an error and never fires
its delivery callback or returns no error and fires it exactly once
(`honours`), and in which every such callback has run by the time the summary
is read (`settled`): a connected worker makes exactly M publish attempts,
whatever fails among them; after the run succeeded + failed = N*M; and when
every connect succeeds and every publish is delivered, succeeded = N*M and
failed = 0. -/
theorem C11_publish_accounting (c : Config) (options : List (Option BenchOption))
    (b : Bench) (hb : (NewBenchmark (some c) options).result = .ok b)
    (now : Config) (cap : Capability) (fired : Nat → Nat → Nat)
    (hx : ∀ i j, cap.honours fired i j)
    (ht : ∀ i j, cap.settled fired i j)
    (hM : 0 ≤ b.messageCount) (hfit : b.clients * b.messageCount < 2147483648) :
    (∀ i, cap.connectFails i = false →
      (publishAttempts (PublishMessages.worker b now cap i) : Int) = b.messageCount) ∧
    (PublishMessages b now cap).successful + (PublishMessages b now cap).failed =
      b.clients * b.messageCount ∧
    ((∀ i, cap.connectFails i = false) → (∀ i j, cap.publishFails i j = false) →
      (PublishMessages b now cap).successful = b.clients * b.messageCount ∧
      (PublishMessages b now cap).failed = 0) := by
  have hx' : ∀ i j, cap.exclusive i j := by
    intro i j
    have hs : cap.publishCallbacks i j = fired i j := ht i j
    rcases hx i j with ⟨ha, hb⟩ | ⟨ha, hb⟩
    · exact Or.inl ⟨ha, by rw [hs, hb]⟩
    · exact Or.inr ⟨ha, by rw [hs, hb]⟩
  obtain ⟨h1, h2, hN, -⟩ := built_linked c options b hb
  have hcast : (b.clients.toNat : Int) = b.clients := Int.toNat_of_nonneg (le_of_lt hN)
  have hM2 : b.messageCount < 2147483648 := by nlinarith
  obtain ⟨s1, s2, s3, s4⟩ :=
    publish_events_sums b now cap h1 h2 hM hM2 hx' (List.range b.clients.toNat)
  rw [List.length_range, hcast] at s1
  have hS : (PublishMessages b now cap).successful =
      sumSucceeded (PublishMessages.events b now cap) := by
    show succeeded32 _ = _
    rw [succeeded32_eq]
    exact wrapInt32_of_fits _ (by unfold PublishMessages.events; linarith)
      (by unfold PublishMessages.events; linarith)
  have hF : (PublishMessages b now cap).failed =
      sumFailed (PublishMessages.events b now cap) := by
    show failed32 _ = _
    rw [failed32_eq]
    exact wrapInt32_of_fits _ (by unfold PublishMessages.events; linarith)
      (by unfold PublishMessages.events; linarith)
  refine ⟨fun i hc => ?_, ?_, fun hc hnf => ?_⟩
  · rw [publish_worker_attempts b now cap i h1 h2 hc]
    exact Int.toNat_of_nonneg hM
  · rw [hS, hF]
    exact s1
  · have hz := s4 hc hnf
    rw [hS, hF]
    unfold PublishMessages.events
    exact ⟨by linarith, hz⟩

theorem C11_publish_accounting_witness :
    (publishAttempts (PublishMessages.worker
        { (initialBench sampleConfig).applyDefaults with
          clients := 1, delay := 0, messageCount := 3 } sampleConfig alwaysDelivers 0) : Int) =
      3 ∧
    (PublishMessages { (initialBench sampleConfig).applyDefaults with
        clients := 1, delay := 0, messageCount := 3 } sampleConfig alwaysDelivers).successful =
      (1 : Int) * 3 ∧
    (PublishMessages { (initialBench sampleConfig).applyDefaults with
        clients := 1, delay := 0, messageCount := 3 } sampleConfig alwaysDelivers).failed = 0 :=
  have h := C11_publish_accounting sampleConfig
    [some (.WithClients 1), some (.WithDelay 0), some (.WithMessageCount 3)]
    { (initialBench sampleConfig).applyDefaults with
        clients := 1, delay := 0, messageCount := 3 } rfl sampleConfig alwaysDelivers
    firesOnce (fun _ _ => Or.inr ⟨rfl, rfl⟩) (fun _ _ => rfl) (by decide) (by decide)
  ⟨h.1 0 rfl, (h.2.2 (fun _ => rfl) (fun _ _ => rfl)).1,
    (h.2.2 (fun _ => rfl) (fun _ _ => rfl)).2⟩

/-! ## The subscribe runner: the dwell window -/

theorem subscribe_worker_connect_fails (b : Bench) (now : Config) (cap : Capability) (i : Nat)
    (h1 : b.cfg = ConfigPtr.base) (h2 : b.cleanSession ≠ BoolPtr.null)
    (hc : cap.connectFails i = true) :
    ∃ cfg, Subscribe.worker b now cap i =
      [.newClient cfg, .connect, .addFailed 1, .logError "subscriber connection failed",
       .wgDone] := by
  obtain ⟨cs, -, hsess⟩ := sessionConfig_of_linked b now i h1 h2
  exact ⟨expectedSession b cs now.Server i, by simp [Subscribe.worker, hsess, hc]⟩

theorem subscribe_worker_register_fails (b : Bench) (now : Config) (cap : Capability) (i : Nat)
    (h1 : b.cfg = ConfigPtr.base) (h2 : b.cleanSession ≠ BoolPtr.null)
    (hc : cap.connectFails i = false) (hs : cap.subscribeFails i = true) :
    ∃ cfg, Subscribe.worker b now cap i =
      [.newClient cfg, .connect, .logClientConnection cfg.Client.ClientID,
       .subscribe b.topic b.qos b.retained, .addFailed 1, .logError "failed to subscribe",
       .wgDone] := by
  obtain ⟨cs, -, hsess⟩ := sessionConfig_of_linked b now i h1 h2
  exact ⟨expectedSession b cs now.Server i, by simp [Subscribe.worker, hsess, hc, hs]⟩

theorem subscribe_worker_registered (b : Bench) (now : Config) (cap : Capability) (i : Nat)
    (h1 : b.cfg = ConfigPtr.base) (h2 : b.cleanSession ≠ BoolPtr.null)
    (hc : cap.connectFails i = false) (hs : cap.subscribeFails i = false) :
    ∃ cfg, Subscribe.worker b now cap i =
      [.newClient cfg, .connect, .logClientConnection cfg.Client.ClientID,
       .subscribe b.topic b.qos b.retained] ++
      ((cap.received i).flatMap
          (fun payload =>
            [Event.addReceived 1, .logSubscribe (workerClientID b.clientID i) payload]) ++
        [.sleep (Subscribe.dwell b), .wgDone]) := by
  obtain ⟨cs, -, hsess⟩ := sessionConfig_of_linked b now i h1 h2
  exact ⟨expectedSession b cs now.Server i, by simp [Subscribe.worker, hsess, hc, hs]⟩

theorem sleeps_received (id : String) (payloads : List String) :
    sleeps (payloads.flatMap
      (fun payload => [Event.addReceived 1, .logSubscribe id payload])) = [] := by
  induction payloads with
  | nil => rfl
  | cons p ps ih =>
    rw [List.flatMap_cons]
    unfold sleeps at ih ⊢
    rw [List.filterMap_append, ih]
    rfl

theorem failedAdds_received (id : String) (payloads : List String) :
    failedAdds (payloads.flatMap
      (fun payload => [Event.addReceived 1, .logSubscribe id payload])) = [] := by
  induction payloads with
  | nil => rfl
  | cons p ps ih =>
    rw [List.flatMap_cons]
    unfold failedAdds at ih ⊢
    rw [List.filterMap_append, ih]
    rfl

/-- C12 (the claim fails): a spec with delay 9223372036855 and messageCount 1
is built; the dwell `time.Duration(delay) * time.Millisecond *
time.Duration(messageCount)` exceeds 64 bits and is negative, so a registered
subscriber calls `time.Sleep` with -9223372036854551616 ns and sleeps nothing,
not 9223372036855 * 1 ms. -/
theorem C12_huge_delay_no_dwell :
    ∃ b, (NewBenchmark (some sampleConfig)
        [some (.WithDelay 9223372036855), some (.WithMessageCount 1)]).result = .ok b ∧
      Subscribe.dwell b = -9223372036854551616 ∧
      sleeps (Subscribe.worker b sampleConfig alwaysReceives 0) = [-9223372036854551616] ∧
      sleptNs (Subscribe.dwell b) = 0 :=
  ⟨_, rfl, rfl, rfl, rfl⟩

/-- C12 (amended): for every built spec, a subscribe worker whose
registration succeeded calls `time.Sleep` once, with the dwell of the spec,
whatever messages it receives, and the dwell is a function of delay and
messageCount alone; it is 5000 ms when delay is 0, and delay*messageCount ms
when delay > 0, messageCount >= 0 and the product fits a 64-bit nanosecond
duration (delay <= 9223372036854 and delay*messageCount*1000000 <
9223372036854775808). -/
theorem C12_dwell_window (c : Config) (options : List (Option BenchOption))
    (b : Bench) (hb : (NewBenchmark (some c) options).result = .ok b) :
    (0 < b.delay → b.delay ≤ 9223372036854 → 0 ≤ b.messageCount →
      b.delay * b.messageCount * 1000000 < 9223372036854775808 →
      Subscribe.dwell b = b.delay * b.messageCount * 1000000 ∧
      sleptNs (Subscribe.dwell b) = b.delay * b.messageCount * 1000000) ∧
    (b.delay = 0 →
      Subscribe.dwell b = 5000 * 1000000 ∧ sleptNs (Subscribe.dwell b) = 5000 * 1000000) ∧
    (∀ (now : Config) (cap : Capability) (i : Nat),
      cap.connectFails i = false → cap.subscribeFails i = false →
      sleeps (Subscribe.worker b now cap i) = [Subscribe.dwell b]) ∧
    (∀ b' : Bench, b'.delay = b.delay → b'.messageCount = b.messageCount →
      Subscribe.dwell b' = Subscribe.dwell b) := by
  obtain ⟨h1, h2, -, hD0⟩ := built_linked c options b hb
  refine ⟨fun hpos hD hM hfit => ?_, fun hz => ?_, fun now cap i hc hs => ?_, fun b' e1 e2 => ?_⟩
  · have hin : wrapInt64 (b.delay * Millisecond) = b.delay * 1000000 := by
      unfold Millisecond
      exact wrapInt64_of_fits _ (by omega) (by omega)
    have hnn : 0 ≤ b.delay * b.messageCount * 1000000 := by positivity
    have hd : Subscribe.dwell b = b.delay * b.messageCount * 1000000 := by
      unfold Subscribe.dwell
      rw [if_pos hpos, hin]
      have hre : b.delay * 1000000 * b.messageCount = b.delay * b.messageCount * 1000000 := by
        ring
      rw [hre]
      exact wrapInt64_of_fits _ (by linarith) hfit
    refine ⟨hd, ?_⟩
    rw [hd]
    exact max_eq_left hnn
  · have hd : Subscribe.dwell b = 5000 * 1000000 := by
      unfold Subscribe.dwell
      rw [if_neg (by omega)]
      decide
    refine ⟨hd, ?_⟩
    rw [hd]
    decide
  · obtain ⟨cfg, hw⟩ := subscribe_worker_registered b now cap i h1 h2 hc hs
    rw [hw]
    unfold sleeps
    rw [List.filterMap_append, List.filterMap_append]
    have := sleeps_received (workerClientID b.clientID i) (cap.received i)
    unfold sleeps at this
    rw [this]
    rfl
  · unfold Subscribe.dwell
    rw [e1, e2]

theorem C12_dwell_window_witness :
    Subscribe.dwell { (initialBench sampleConfig).applyDefaults with
        delay := 100, messageCount := 7 } = (100 : Int) * 7 * 1000000 ∧
      sleptNs (Subscribe.dwell { (initialBench sampleConfig).applyDefaults with
        delay := 100, messageCount := 7 }) = (100 : Int) * 7 * 1000000 :=
  (C12_dwell_window sampleConfig [some (.WithDelay 100), some (.WithMessageCount 7)]
    { (initialBench sampleConfig).applyDefaults with delay := 100, messageCount := 7 }
    rfl).1 (by decide) (by decide) (by decide) (by decide)

/-! ## The subscribe runner: failures -/

theorem wrapInt64_add_left (a d : Int) : wrapInt64 (wrapInt64 a + d) = wrapInt64 (a + d) := by
  unfold wrapInt64
  norm_num
  omega

theorem failed64_fold (evs : List Event) :
    ∀ acc : Int,
      evs.foldl (fun acc e => match e with | .addFailed d => wrapInt64 (acc + d) | _ => acc)
        (wrapInt64 acc) = wrapInt64 (acc + sumFailed evs) := by
  induction evs with
  | nil => intro acc; simp [sumFailed]
  | cons e es ih =>
    intro acc
    have hs : sumFailed (e :: es) =
        (match e with | .addFailed d => d | _ => 0) + sumFailed es := by
      simp [sumFailed]
    cases e <;> simp only [List.foldl_cons, hs] <;>
      first
        | (rw [wrapInt64_add_left, ih]; congr 1; ring)
        | (rw [ih]; congr 1; ring)

theorem failed64_eq (evs : List Event) : failed64 evs = wrapInt64 (sumFailed evs) := by
  have h := failed64_fold evs 0
  have h0 : wrapInt64 0 = 0 := by decide
  rw [h0, zero_add] at h
  exact h

theorem sumFailed_received (id : String) (payloads : List String) :
    sumFailed (payloads.flatMap
      (fun payload => [Event.addReceived 1, .logSubscribe id payload])) = 0 := by
  induction payloads with
  | nil => rfl
  | cons p ps ih =>
    rw [List.flatMap_cons, sumFailed_append, ih]
    simp [sumFailed]

theorem subscribe_worker_sumFailed (b : Bench) (now : Config) (cap : Capability) (i : Nat)
    (h1 : b.cfg = ConfigPtr.base) (h2 : b.cleanSession ≠ BoolPtr.null) :
    sumFailed (Subscribe.worker b now cap i) =
      if (cap.connectFails i || cap.subscribeFails i) = true then 1 else 0 := by
  cases hc : cap.connectFails i with
  | true =>
    obtain ⟨cfg, hw⟩ := subscribe_worker_connect_fails b now cap i h1 h2 hc
    rw [hw]
    simp [sumFailed]
  | false =>
    cases hs : cap.subscribeFails i with
    | true =>
      obtain ⟨cfg, hw⟩ := subscribe_worker_register_fails b now cap i h1 h2 hc hs
      rw [hw]
      simp [sumFailed]
    | false =>
      obtain ⟨cfg, hw⟩ := subscribe_worker_registered b now cap i h1 h2 hc hs
      rw [hw, sumFailed_append, sumFailed_append, sumFailed_received]
      simp [sumFailed]

theorem subscribe_events_sumFailed (b : Bench) (now : Config) (cap : Capability)
    (h1 : b.cfg = ConfigPtr.base) (h2 : b.cleanSession ≠ BoolPtr.null) (l : List Nat) :
    sumFailed (l.flatMap (Subscribe.worker b now cap)) =
      (l.countP (fun i => cap.connectFails i || cap.subscribeFails i) : Nat) := by
  induction l with
  | nil => rfl
  | cons i l ih =>
    rw [List.flatMap_cons, sumFailed_append, ih, subscribe_worker_sumFailed b now cap i h1 h2,
      List.countP_cons]
    split_ifs <;> push_cast <;> ring

/-- C13: in the subscribe runner of a built spec (clients = N, a Go `int`, so
below 2^63) every worker adds at most one failure: a worker whose connect
fails adds 1 to `failed` once, makes no `Subscribe` call and no sleep; a
worker that connects but whose registration fails adds 1 once and does not
sleep; a worker whose registration succeeds adds nothing. The reported failed
count is the number of workers 0..N-1 whose connect or registration failed,
it is at most N, and it is N when every connect fails. -/
theorem C13_subscribe_failures (c : Config) (options : List (Option BenchOption))
    (b : Bench) (hb : (NewBenchmark (some c) options).result = .ok b)
    (hint : b.clients < 9223372036854775808) (now : Config) (cap : Capability) :
    (∀ i, cap.connectFails i = true →
      failedAdds (Subscribe.worker b now cap i) = [1] ∧
      (Subscribe.worker b now cap i).countP Event.isSubscribe = 0 ∧
      sleeps (Subscribe.worker b now cap i) = []) ∧
    (∀ i, cap.connectFails i = false → cap.subscribeFails i = true →
      failedAdds (Subscribe.worker b now cap i) = [1] ∧
      sleeps (Subscribe.worker b now cap i) = []) ∧
    (∀ i, cap.connectFails i = false → cap.subscribeFails i = false →
      failedAdds (Subscribe.worker b now cap i) = []) ∧
    (Subscribe b now cap).failed =
      ((List.range b.clients.toNat).countP
        (fun i => cap.connectFails i || cap.subscribeFails i) : Nat) ∧
    (Subscribe b now cap).failed ≤ b.clients ∧
    ((∀ i : Nat, (i : Int) < b.clients → cap.connectFails i = true) →
      (Subscribe b now cap).failed = b.clients) := by
  obtain ⟨h1, h2, hN, -⟩ := built_linked c options b hb
  have hcast : (b.clients.toNat : Int) = b.clients := Int.toNat_of_nonneg (le_of_lt hN)
  have hle : (List.range b.clients.toNat).countP
      (fun i => cap.connectFails i || cap.subscribeFails i) ≤ b.clients.toNat := by
    have := List.countP_le_length (fun i => cap.connectFails i || cap.subscribeFails i)
      (l := List.range b.clients.toNat)
    rwa [List.length_range] at this
  have hfailed : (Subscribe b now cap).failed =
      ((List.range b.clients.toNat).countP
        (fun i => cap.connectFails i || cap.subscribeFails i) : Nat) := by
    show failed64 (Subscribe.events b now cap) = _
    rw [failed64_eq]
    unfold Subscribe.events
    rw [subscribe_events_sumFailed b now cap h1 h2]
    apply wrapInt64_of_fits
    · have : (0 : Int) ≤ ((List.range b.clients.toNat).countP
          (fun i => cap.connectFails i || cap.subscribeFails i) : Nat) := Int.ofNat_nonneg _
      linarith
    · have : (((List.range b.clients.toNat).countP
          (fun i => cap.connectFails i || cap.subscribeFails i) : Nat) : Int) ≤
          (b.clients.toNat : Int) := by exact_mod_cast hle
      linarith
  refine ⟨fun i hc => ?_, fun i hc hs => ?_, fun i hc hs => ?_, hfailed, ?_, fun hall => ?_⟩
  · obtain ⟨cfg, hw⟩ := subscribe_worker_connect_fails b now cap i h1 h2 hc
    rw [hw]
    exact ⟨rfl, rfl, rfl⟩
  · obtain ⟨cfg, hw⟩ := subscribe_worker_register_fails b now cap i h1 h2 hc hs
    rw [hw]
    exact ⟨rfl, rfl⟩
  · obtain ⟨cfg, hw⟩ := subscribe_worker_registered b now cap i h1 h2 hc hs
    rw [hw]
    unfold failedAdds
    rw [List.filterMap_append, List.filterMap_append]
    have := failedAdds_received (workerClientID b.clientID i) (cap.received i)
    unfold failedAdds at this
    rw [this]
    rfl
  · rw [hfailed, ← hcast]
    exact_mod_cast hle
  · rw [hfailed]
    have hcount : (List.range b.clients.toNat).countP
        (fun i => cap.connectFails i || cap.subscribeFails i) = b.clients.toNat := by
      have hlen : (List.range b.clients.toNat).length = b.clients.toNat := List.length_range _
      conv_rhs => rw [← hlen]
      rw [List.countP_eq_length]
      intro i hi
      have hi' : (i : Int) < b.clients := by
        rw [← hcast]
        exact_mod_cast List.mem_range.mp hi
      simp [hall i hi']
    rw [hcount, hcast]

theorem C13_subscribe_failures_witness :
    (Subscribe { (initialBench sampleConfig).applyDefaults with clients := 3 }
      sampleConfig neverConnects).failed = 3 :=
  (C13_subscribe_failures sampleConfig [some (.WithClients 3)]
    { (initialBench sampleConfig).applyDefaults with clients := 3 } rfl (by decide)
    sampleConfig neverConnects).2.2.2.2.2 (fun _ _ => rfl)

/-! ## Construction: writes to the base configuration -/

theorem apply_cfg_unchanged (o : BenchOption) (s : BuildState)
    (h : o.writesConfig = false) : (o.apply s).cfg = s.cfg := by
  cases o <;> first | rfl | (simp [BenchOption.writesConfig] at h)

theorem applyOptions_cfg_unchanged (options : List (Option BenchOption)) :
    ∀ s : BuildState, (∀ o, some o ∈ options → o.writesConfig = false) →
      (applyOptions s options).cfg = s.cfg := by
  induction options with
  | nil => intro s _; rfl
  | cons o os ih =>
    intro s h
    rw [applyOptions_cons]
    have hos : ∀ w, some w ∈ os → w.writesConfig = false :=
      fun w hw => h w (List.mem_cons_of_mem _ hw)
    cases o with
    | none => exact ih s hos
    | some w =>
      rw [ih _ hos]
      exact apply_cfg_unchanged w s (h w (List.mem_cons_self _ _))

theorem last_write_sameAt (s : BuildState) (xs ys : List (Option BenchOption))
    (o : BenchOption) (hys : ∀ w, some w ∈ ys → w.field ≠ o.field) :
    (applyOptions s (xs ++ some o :: ys)).sameAt o.field (o.apply (applyOptions s xs)) := by
  rw [applyOptions_append, applyOptions_cons]
  exact applyOptions_sameAt o.field ys _ hys

theorem no_override_pointer (c : Config) (options : List (Option BenchOption))
    (spec : Bench) (base : Config)
    (hno : ∀ v, some (BenchOption.WithCleanSession v) ∉ options)
    (hb : NewBenchmark (some c) options = { cfg := some base, result := .ok spec }) :
    spec.cleanSession = BoolPtr.cfgCleanSession ∧
      base.Client.CleanSession = c.Client.CleanSession := by
  have hres : (NewBenchmark (some c) options).result = .ok spec := by rw [hb]
  have hcfg : (NewBenchmark (some c) options).cfg = some base := by rw [hb]
  have hsame := applyOptions_sameAt .cleanSession options
    { cfg := c, bench := initialBench c }
    (by
      intro o ho hf
      cases o <;> simp [BenchOption.field] at hf
      exact hno _ ho)
  obtain ⟨hp, hc⟩ := hsame
  have hspec := validate_ok _ _ hres
  simp only [NewBenchmark, Option.some.injEq] at hcfg
  subst hcfg
  refine ⟨?_, hc⟩
  rw [hspec]
  simp only [Bench.applyDefaults]
  rw [hp]
  simp [initialBench]

/-- C14: `WithHost`, `WithPort`, `WithKeepAlive` and `WithCleanSession` write
their value into the caller's base configuration as well as into the `Bench`:
when no later option writes the same field, the configuration object holds
the value after `NewBenchmark`, whether it returned a spec or an error (as in
the call with clients 0 below, which fails validation and still leaves host
`"h"` behind); an option list with none of these four leaves the base
configuration as it was; and a spec built without a cleanSession override
reads false as its effective cleanSession after a second `NewBenchmark` on
the same configuration object ends with `WithCleanSession(false)`. -/
theorem C14_options_write_base_config :
    (∀ (c : Config) (xs ys : List (Option BenchOption)) (v : String),
      (∀ w, some w ∈ ys → w.field ≠ .host) →
      ∃ c', (NewBenchmark (some c) (xs ++ some (.WithHost v) :: ys)).cfg = some c' ∧
        c'.Server.Host = v ∧
        (benchAfterOptions c (xs ++ some (.WithHost v) :: ys)).host = v) ∧
    (∀ (c : Config) (xs ys : List (Option BenchOption)) (v : Nat),
      (∀ w, some w ∈ ys → w.field ≠ .port) →
      ∃ c', (NewBenchmark (some c) (xs ++ some (.WithPort v) :: ys)).cfg = some c' ∧
        c'.Server.Port = v ∧
        (benchAfterOptions c (xs ++ some (.WithPort v) :: ys)).port = v) ∧
    (∀ (c : Config) (xs ys : List (Option BenchOption)) (v : Nat),
      (∀ w, some w ∈ ys → w.field ≠ .keepAlive) →
      ∃ c', (NewBenchmark (some c) (xs ++ some (.WithKeepAlive v) :: ys)).cfg = some c' ∧
        c'.Client.KeepAlive = v ∧
        (benchAfterOptions c (xs ++ some (.WithKeepAlive v) :: ys)).keepAlive = v) ∧
    (∀ (c : Config) (xs ys : List (Option BenchOption)) (v : Bool),
      (∀ w, some w ∈ ys → w.field ≠ .cleanSession) →
      ∃ c', (NewBenchmark (some c) (xs ++ some (.WithCleanSession v) :: ys)).cfg = some c' ∧
        c'.Client.CleanSession = v ∧
        (benchAfterOptions c (xs ++ some (.WithCleanSession v) :: ys)).cleanSession =
          BoolPtr.captured v) ∧
    (∃ e c', NewBenchmark (some sampleConfig) [some (.WithClients 0), some (.WithHost "h")] =
        { cfg := some c', result := .error e } ∧ c'.Server.Host = "h") ∧
    (∀ (c : Config) (options : List (Option BenchOption)),
      (∀ o, some o ∈ options → o.writesConfig = false) →
      (NewBenchmark (some c) options).cfg = some c) ∧
    (∀ (c : Config) (options₁ options₂ : List (Option BenchOption)) (spec : Bench)
        (base₁ base₂ : Config),
      (∀ v, some (BenchOption.WithCleanSession v) ∉ options₁) →
      NewBenchmark (some c) options₁ = { cfg := some base₁, result := .ok spec } →
      (NewBenchmark (some base₁)
          (options₂ ++ [some (.WithCleanSession false)])).cfg = some base₂ →
      spec.cleanSession.deref base₁ = some c.Client.CleanSession ∧
      spec.cleanSession.deref base₂ = some false) := by
  refine ⟨?_, ?_, ?_, ?_, ⟨_, _, rfl, rfl⟩, ?_, ?_⟩
  · intro c xs ys v hys
    have h := last_write_sameAt { cfg := c, bench := initialBench c } xs ys (.WithHost v) hys
    have hl := applyOptions_linked xs _ (initial_linked c)
    simp only [BenchOption.field, BuildState.sameAt, BenchOption.apply, hl.1] at h
    exact ⟨_, rfl, h.2, h.1⟩
  · intro c xs ys v hys
    have h := last_write_sameAt { cfg := c, bench := initialBench c } xs ys (.WithPort v) hys
    have hl := applyOptions_linked xs _ (initial_linked c)
    simp only [BenchOption.field, BuildState.sameAt, BenchOption.apply, hl.1] at h
    exact ⟨_, rfl, h.2, h.1⟩
  · intro c xs ys v hys
    have h := last_write_sameAt { cfg := c, bench := initialBench c } xs ys
      (.WithKeepAlive v) hys
    have hl := applyOptions_linked xs _ (initial_linked c)
    simp only [BenchOption.field, BuildState.sameAt, BenchOption.apply, hl.1] at h
    exact ⟨_, rfl, h.2, h.1⟩
  · intro c xs ys v hys
    have h := last_write_sameAt { cfg := c, bench := initialBench c } xs ys
      (.WithCleanSession v) hys
    have hl := applyOptions_linked xs _ (initial_linked c)
    simp only [BenchOption.field, BuildState.sameAt, BenchOption.apply, hl.1] at h
    exact ⟨_, rfl, h.2, h.1⟩
  · intro c options h
    show some (applyOptions _ options).cfg = some c
    rw [applyOptions_cfg_unchanged options _ h]
  · intro c options₁ options₂ spec base₁ base₂ hno hb hsecond
    obtain ⟨hp, hc⟩ := no_override_pointer c options₁ spec base₁ hno hb
    have h := last_write_sameAt { cfg := base₁, bench := initialBench base₁ } options₂ []
      (.WithCleanSession false) (fun w hw => absurd hw (List.not_mem_nil _))
    have hl := applyOptions_linked options₂ _ (initial_linked base₁)
    simp only [BenchOption.field, BuildState.sameAt, BenchOption.apply, hl.1] at h
    simp only [NewBenchmark, Option.some.injEq] at hsecond
    rw [hp]
    simp only [BoolPtr.deref]
    refine ⟨congrArg some hc, ?_⟩
    rw [← hsecond]
    exact congrArg some h.2

theorem C14_options_write_base_config_witness :
    (initialBench sampleConfig).applyDefaults.cleanSession.deref sampleConfig =
        some sampleConfig.Client.CleanSession ∧
      (initialBench sampleConfig).applyDefaults.cleanSession.deref persistentConfig =
        some false :=
  C14_options_write_base_config.2.2.2.2.2.2 sampleConfig [] [some (.WithTopic "t")]
    (initialBench sampleConfig).applyDefaults sampleConfig persistentConfig
    (fun _ h => absurd h (List.not_mem_nil _)) rfl rfl

/-! ## Workers: connecting and releasing -/

/-- C15: in the connection runner of a built spec every worker, whether its
connect fails or succeeds, makes exactly these calls on its client, in this
order: one `Connect`, then one `Disconnect`. -/
theorem C15_connect_then_disconnect (c : Config) (options : List (Option BenchOption))
    (b : Bench) (hb : (NewBenchmark (some c) options).result = .ok b)
    (now : Config) (cap : Capability) (i : Nat) :
    (RunConnections.worker b now cap i).filter Event.isCapabilityCall =
      [.connect, .disconnect] := by
  obtain ⟨h1, h2, -, -⟩ := built_linked c options b hb
  obtain ⟨cs, -, hsess⟩ := sessionConfig_of_linked b now i h1 h2
  unfold RunConnections.worker
  rw [hsess]
  cases cap.connectFails i <;> rfl

theorem C15_connect_then_disconnect_witness :
    (RunConnections.worker (initialBench sampleConfig).applyDefaults sampleConfig
        neverConnects 0).filter Event.isCapabilityCall = [.connect, .disconnect] ∧
    (RunConnections.worker (initialBench sampleConfig).applyDefaults sampleConfig
        alwaysDelivers 0).filter Event.isCapabilityCall = [.connect, .disconnect] :=
  ⟨C15_connect_then_disconnect sampleConfig [] (initialBench sampleConfig).applyDefaults rfl
      sampleConfig neverConnects 0,
   C15_connect_then_disconnect sampleConfig [] (initialBench sampleConfig).applyDefaults rfl
      sampleConfig alwaysDelivers 0⟩

theorem disconnect_not_mem_received (id : String) (payloads : List String) :
    Event.disconnect ∉ payloads.flatMap
      (fun payload => [Event.addReceived 1, .logSubscribe id payload]) := by
  intro h
  obtain ⟨p, -, hp⟩ := List.mem_flatMap.mp h
  simp at hp

/-- C16: no subscribe worker ever calls `Disconnect`, on any path (the
deferred `client.Disconnect()` is commented out in `sub.go`); in particular a
worker of the default spec that connects, registers and receives makes the
calls `Connect`, `Subscribe` and nothing else on its client, and ends after
its one sleep. -/
theorem C16_subscribe_never_disconnects :
    (∀ (b : Bench) (now : Config) (cap : Capability) (i : Nat),
      Event.disconnect ∉ Subscribe.worker b now cap i) ∧
    (∃ b, (NewBenchmark (some sampleConfig) []).result = .ok b ∧
      (Subscribe.worker b sampleConfig alwaysReceives 0).filter Event.isCapabilityCall =
        [.connect, .subscribe "bench/test" 0 false] ∧
      (Subscribe.worker b sampleConfig alwaysReceives 0).getLast? = some .wgDone ∧
      sleeps (Subscribe.worker b sampleConfig alwaysReceives 0) = [1000 * 100 * 1000000]) := by
  refine ⟨fun b now cap i => ?_, ⟨_, rfl, rfl, rfl, rfl⟩⟩
  unfold Subscribe.worker
  have hr := disconnect_not_mem_received (workerClientID b.clientID i) (cap.received i)
  cases h : b.sessionConfig now (workerClientID b.clientID i) with
  | none => simp [h]
  | some cfg =>
    cases hc : cap.connectFails i <;> cases hs : cap.subscribeFails i <;> simp [h, hr]

/-! ## The completion barrier: balance and the summary -/

theorem undone_nonneg (ws : List (List Event)) : 0 ≤ undone ws := by
  induction ws with
  | nil => simp [undone]
  | cons w ws ih =>
    have h : undone (w :: ws) = (w.count Event.wgDone : Int) + undone ws := by
      simp [undone]
    rw [h]
    have : (0 : Int) ≤ (w.count Event.wgDone : Int) := Int.ofNat_nonneg _
    linarith

theorem undone_cons (w : List Event) (ws : List (List Event)) :
    undone (w :: ws) = (w.count Event.wgDone : Int) + undone ws := by
  simp [undone]

theorem undone_append_singleton (ws : List (List Event)) (w : List Event) :
    undone (ws ++ [w]) = undone ws + (w.count Event.wgDone : Int) := by
  simp [undone]

theorem count_pos_of_getLast (w : List Event) (h : w.getLast? = some Event.wgDone) :
    0 < w.count Event.wgDone := by
  apply List.count_pos_iff.mpr
  exact List.mem_of_getLast?_eq_some h

theorem allReturned_of_undone_zero (ws : List (List Event))
    (h0 : undone ws = 0) (he : endWithDone ws) : allReturned ws := by
  induction ws with
  | nil => intro w hw; exact absurd hw (List.not_mem_nil _)
  | cons w ws ih =>
    rw [undone_cons] at h0
    have h1 := undone_nonneg ws
    have h2 : (0 : Int) ≤ (w.count Event.wgDone : Int) := Int.ofNat_nonneg _
    have hw0 : w.count Event.wgDone = 0 := by omega
    have hws0 : undone ws = 0 := by omega
    have hrest := ih hws0 (fun v hv => he v (List.mem_cons_of_mem _ hv))
    intro v hv
    rcases List.mem_cons.mp hv with hv | hv
    · subst hv
      rcases he v (List.mem_cons_self _ _) with h | h
      · exact h
      · have := count_pos_of_getLast v h
        omega
    · exact hrest v hv

theorem stepWorker_none_of_allReturned (ws : List (List Event)) (h : allReturned ws) :
    ∀ k, stepWorker k ws = none := by
  induction ws with
  | nil => intro k; cases k <;> rfl
  | cons w ws ih =>
    intro k
    have hw : w = [] := h w (List.mem_cons_self _ _)
    subst hw
    cases k with
    | zero => rfl
    | succ k =>
      simp only [stepWorker]
      rw [ih (fun v hv => h v (List.mem_cons_of_mem _ hv)) k]

theorem getLast?_tail (e : Event) (rest : List Event)
    (h : (e :: rest).getLast? = some Event.wgDone) :
    rest = [] ∨ rest.getLast? = some Event.wgDone := by
  cases rest with
  | nil => exact Or.inl rfl
  | cons r rs =>
    right
    rw [List.getLast?_cons_cons] at h
    exact h

theorem stepWorker_spec (ws : List (List Event)) :
    ∀ (k : Nat) (ws' : List (List Event)) (e : Event),
      stepWorker k ws = some (ws', e) →
      undone ws = undone ws' + (if e = Event.wgDone then 1 else 0) ∧
      ws'.length = ws.length ∧ (endWithDone ws → endWithDone ws') := by
  induction ws with
  | nil => intro k ws' e h; cases k <;> simp [stepWorker] at h
  | cons w ws ih =>
    intro k ws' e h
    cases k with
    | zero =>
      cases w with
      | nil => simp [stepWorker] at h
      | cons a rest =>
        simp only [stepWorker, Option.some.injEq, Prod.mk.injEq] at h
        obtain ⟨h1, h2⟩ := h
        subst h1 h2
        refine ⟨?_, rfl, fun he v hv => ?_⟩
        · rw [undone_cons, undone_cons, List.count_cons]
          by_cases ha : a = Event.wgDone
          · subst ha
            simp
            ring
          · have hne : (a == Event.wgDone) = false := by simpa using ha
            simp [ha, hne]
        · rcases List.mem_cons.mp hv with hv | hv
          · subst hv
            rcases he (a :: v) (List.mem_cons_self _ _) with h | h
            · exact absurd h (List.cons_ne_nil _ _)
            · exact getLast?_tail a v h
          · exact he v (List.mem_cons_of_mem _ hv)
    | succ k =>
      simp only [stepWorker] at h
      cases hk : stepWorker k ws with
      | none => simp [hk] at h
      | some r =>
        obtain ⟨ws'', e'⟩ := r
        simp only [hk, Option.some.injEq, Prod.mk.injEq] at h
        obtain ⟨h1, h2⟩ := h
        subst h1 h2
        obtain ⟨i1, i2, i3⟩ := ih k ws'' e' hk
        refine ⟨?_, by simp [i2], fun he v hv => ?_⟩
        · rw [undone_cons, undone_cons, i1]
          ring
        · rcases List.mem_cons.mp hv with hv | hv
          · subst hv
            exact he v (List.mem_cons_self _ _)
          · exact i3 (fun u hu => he u (List.mem_cons_of_mem _ hu)) v hv

theorem step_balanced (W : Nat → List Event)
    (hW : ∀ i, (W i).count Event.wgDone = 1 ∧ (W i).getLast? = some Event.wgDone)
    (N : Int) (s s' : RunState) (t : Turn)
    (hs : s.balanced N) (hstep : s.step W t = some s') : s'.balanced N := by
  rcases hs with ⟨p, hl, hp, hlog, hcount, hend, hlen⟩ | ⟨hl, hc, hall, hlen⟩
  · cases t with
    | launcher =>
      cases p with
      | nil =>
        simp only [RunState.step, hl, List.nil_append] at hstep
        by_cases h0 : s.counter = 0
        · simp only [h0, if_true, Option.some.injEq] at hstep
          subst hstep
          right
          have hu : undone s.workers = 0 := by
            simp only [pendingAdds, pendingGos, List.map_nil, List.sum_nil] at hcount
            omega
          refine ⟨Or.inl ⟨rfl, hlog⟩, rfl, allReturned_of_undone_zero _ hu hend, ?_⟩
          simpa [pendingGos] using hlen
        · simp [h0] at hstep
      | cons e p' =>
        have he := hp e (List.mem_cons_self _ _)
        have hp' : ∀ x ∈ p', x.isLaunchStep = true :=
          fun x hx => hp x (List.mem_cons_of_mem _ hx)
        cases e with
        | wgAdd n =>
          simp only [RunState.step, hl, List.cons_append, Option.some.injEq] at hstep
          subst hstep
          left
          refine ⟨p', rfl, hp', hlog, ?_, hend, ?_⟩
          · simp only [pendingAdds, pendingGos, List.map_cons, List.sum_cons] at hcount ⊢
            linarith
          · simp only [pendingGos, List.map_cons, List.sum_cons] at hlen ⊢
            linarith
        | go id =>
          simp only [RunState.step, hl, List.cons_append, Option.some.injEq] at hstep
          subst hstep
          left
          refine ⟨p', rfl, hp', hlog, ?_, ?_, ?_⟩
          · simp only [undone_append_singleton, (hW id.toNat).1]
            simp only [pendingAdds, pendingGos, List.map_cons, List.sum_cons] at hcount ⊢
            push_cast
            linarith
          · intro v hv
            rcases List.mem_append.mp hv with hv | hv
            · exact hend v hv
            · rw [List.mem_singleton] at hv
              subst hv
              exact Or.inr (hW id.toNat).2
          · simp only [pendingGos, List.map_cons, List.sum_cons, List.length_append,
              List.length_singleton] at hlen ⊢
            push_cast
            linarith
        | sleep d =>
          simp only [RunState.step, hl, List.cons_append, Option.some.injEq] at hstep
          subst hstep
          left
          refine ⟨p', rfl, hp', hlog, ?_, hend, ?_⟩
          · simp only [pendingAdds, pendingGos, List.map_cons, List.sum_cons] at hcount ⊢
            linarith
          · simp only [pendingGos, List.map_cons, List.sum_cons] at hlen ⊢
            linarith
        | wgWait => simp [LaunchEvent.isLaunchStep] at he
        | logFinished => simp [LaunchEvent.isLaunchStep] at he
    | worker k =>
      simp only [RunState.step] at hstep
      cases hk : stepWorker k s.workers with
      | none => simp [hk] at hstep
      | some r =>
        obtain ⟨ws, e⟩ := r
        simp only [hk, Option.some.injEq] at hstep
        subst hstep
        obtain ⟨i1, i2, i3⟩ := stepWorker_spec s.workers k ws e hk
        left
        refine ⟨p, hl, hp, hlog, ?_, i3 hend, ?_⟩
        · show (if e = Event.wgDone then s.counter - 1 else s.counter) + pendingAdds p =
            undone ws + pendingGos p
          split_ifs with h <;> simp only [h, if_true, if_false] at i1 <;> linarith
        · show (ws.length : Int) + pendingGos p = N
          rw [i2]
          exact hlen
  · cases t with
    | launcher =>
      rcases hl with ⟨hl, hlog⟩ | hl
      · simp only [RunState.step, hl, Option.some.injEq] at hstep
        subst hstep
        right
        exact ⟨Or.inr rfl, hc, hall, hlen⟩
      · simp [RunState.step, hl] at hstep
    | worker k =>
      simp [RunState.step, stepWorker_none_of_allReturned s.workers hall k] at hstep

theorem run_balanced (W : Nat → List Event)
    (hW : ∀ i, (W i).count Event.wgDone = 1 ∧ (W i).getLast? = some Event.wgDone)
    (N : Int) (sched : List Turn) :
    ∀ s s' : RunState, s.balanced N → s.run W sched = some s' → s'.balanced N := by
  induction sched with
  | nil =>
    intro s s' hs h
    simp only [RunState.run, Option.some.injEq] at h
    subst h
    exact hs
  | cons t ts ih =>
    intro s s' hs h
    simp only [RunState.run] at h
    cases hst : s.step W t with
    | none => simp [hst] at h
    | some s₁ =>
      simp only [hst] at h
      exact ih s₁ s' (step_balanced W hW N s s₁ t hs hst) h

theorem summary_after_workers (W : Nat → List Event)
    (hW : ∀ i, (W i).count Event.wgDone = 1 ∧ (W i).getLast? = some Event.wgDone)
    (pre : List LaunchEvent) (hpre : ∀ e ∈ pre, e.isLaunchStep = true)
    (hbal : pendingAdds pre = pendingGos pre)
    (sched : List Turn) (s : RunState)
    (hrun : (initialRun (pre ++ [.wgWait, .logFinished])).run W sched = some s)
    (hlog : s.summaryLogged = true) :
    allReturned s.workers ∧ (s.workers.length : Int) = pendingGos pre ∧ s.counter = 0 := by
  have hinit : (initialRun (pre ++ [.wgWait, .logFinished])).balanced (pendingGos pre) := by
    left
    refine ⟨pre, rfl, hpre, rfl, ?_, ?_, ?_⟩
    · simp [initialRun, undone, hbal]
    · intro w hw
      simp [initialRun] at hw
    · simp [initialRun]
  rcases run_balanced W hW _ sched _ s hinit hrun with ⟨p, -, -, hno, -, -, -⟩ | ⟨-, hc, hall, hlen⟩
  · rw [hno] at hlog
    exact absurd hlog (by decide)
  · exact ⟨hall, hlen, hc⟩

theorem wgDone_not_mem_attempt (b : Bench) (cap : Capability) (id : String) (i j : Nat) :
    Event.wgDone ∉ PublishMessages.attempt b cap id i j := by
  unfold PublishMessages.attempt
  intro h
  simp only [List.mem_append, List.mem_flatten, List.mem_replicate] at h
  rcases h with ((h | h) | ⟨l, ⟨-, hl⟩, h⟩) | h
  · split_ifs at h <;> simp at h
  · simp at h
  · subst hl
    simp at h
  · split_ifs at h <;> simp at h

theorem count_wgDone_attempts (b : Bench) (cap : Capability) (id : String) (i : Nat)
    (js : List Nat) :
    (js.flatMap (PublishMessages.attempt b cap id i)).count Event.wgDone = 0 := by
  apply List.count_eq_zero.mpr
  intro h
  obtain ⟨j, -, hj⟩ := List.mem_flatMap.mp h
  exact wgDone_not_mem_attempt b cap id i j hj

theorem count_wgDone_received (id : String) (payloads : List String) :
    (payloads.flatMap
      (fun payload => [Event.addReceived 1, .logSubscribe id payload])).count Event.wgDone =
      0 := by
  apply List.count_eq_zero.mpr
  intro h
  obtain ⟨p, -, hp⟩ := List.mem_flatMap.mp h
  simp at hp

theorem getLast?_cons_append_two (e : Event) (xs : List Event) (a z : Event) :
    (e :: (xs ++ [a, z])).getLast? = some z := by
  have h : e :: (xs ++ [a, z]) = (e :: xs ++ [a]) ++ [z] := by simp
  rw [h, List.getLast?_concat]

theorem conn_worker_done (b : Bench) (now : Config) (cap : Capability) (i : Nat) :
    (RunConnections.worker b now cap i).count Event.wgDone = 1 ∧
    (RunConnections.worker b now cap i).getLast? = some Event.wgDone := by
  unfold RunConnections.worker
  cases h : b.sessionConfig now (workerClientID b.clientID i) with
  | none => exact ⟨rfl, rfl⟩
  | some cfg => cases hc : cap.connectFails i <;> exact ⟨rfl, rfl⟩

theorem pub_worker_done (b : Bench) (now : Config) (cap : Capability) (i : Nat) :
    (PublishMessages.worker b now cap i).count Event.wgDone = 1 ∧
    (PublishMessages.worker b now cap i).getLast? = some Event.wgDone := by
  unfold PublishMessages.worker
  dsimp only
  split
  · exact ⟨rfl, rfl⟩
  · cases hc : cap.connectFails i with
    | true => exact ⟨rfl, rfl⟩
    | false =>
      simp only [Bool.false_eq_true, if_false]
      refine ⟨?_, ?_⟩
      · simp only [List.count_append, count_wgDone_attempts]
        rfl
      · simp only [List.cons_append, List.nil_append, List.append_assoc]
        rw [List.getLast?_cons_cons, List.getLast?_cons_cons]
        exact getLast?_cons_append_two _ _ _ _

theorem sub_worker_done (b : Bench) (now : Config) (cap : Capability) (i : Nat) :
    (Subscribe.worker b now cap i).count Event.wgDone = 1 ∧
    (Subscribe.worker b now cap i).getLast? = some Event.wgDone := by
  unfold Subscribe.worker
  dsimp only
  split
  · exact ⟨rfl, rfl⟩
  · cases hc : cap.connectFails i with
    | true => exact ⟨rfl, rfl⟩
    | false =>
      cases hs : cap.subscribeFails i with
      | true => exact ⟨rfl, rfl⟩
      | false =>
        simp only [Bool.false_eq_true, if_false]
        refine ⟨?_, ?_⟩
        · simp only [List.count_append, count_wgDone_received]
          rfl
        · simp only [List.cons_append, List.nil_append, List.append_assoc]
          rw [List.getLast?_cons_cons, List.getLast?_cons_cons, List.getLast?_cons_cons]
          exact getLast?_cons_append_two _ _ _ _

theorem launch_loop_facts (f : Nat → List LaunchEvent) (n : Nat)
    (hf : ∀ i, (∀ e ∈ f i, e.isLaunchStep = true) ∧ pendingAdds (f i) = 1 ∧
      pendingGos (f i) = 1) :
    (∀ e ∈ (List.range n).flatMap f, e.isLaunchStep = true) ∧
    pendingAdds ((List.range n).flatMap f) = n ∧
    pendingGos ((List.range n).flatMap f) = n := by
  induction n with
  | zero => simp [pendingAdds, pendingGos]
  | succ n ih =>
    obtain ⟨i1, i2, i3⟩ := ih
    obtain ⟨f1, f2, f3⟩ := hf n
    rw [List.range_succ, List.flatMap_append]
    refine ⟨?_, ?_, ?_⟩
    · intro e he
      rcases List.mem_append.mp he with he | he
      · exact i1 e he
      · simp only [List.flatMap_cons, List.flatMap_nil, List.append_nil] at he
        exact f1 e he
    · have : pendingAdds ((List.range n).flatMap f ++ [n].flatMap f) =
          pendingAdds ((List.range n).flatMap f) + pendingAdds (f n) := by
        simp [pendingAdds]
      rw [this, i2, f2]
      push_cast
      ring
    · have : pendingGos ((List.range n).flatMap f ++ [n].flatMap f) =
          pendingGos ((List.range n).flatMap f) + pendingGos (f n) := by
        simp [pendingGos]
      rw [this, i3, f3]
      push_cast
      ring

theorem launch_without_sleeps (d : Int) (n : Nat) :
    ((List.range n).flatMap
        (fun i => [LaunchEvent.wgAdd 1, .go (i : Int), .sleep d])).filter
      (fun e => !e.isSleep) =
    (List.range n).flatMap (fun i => [LaunchEvent.wgAdd 1, .go (i : Int)]) := by
  induction n with
  | zero => rfl
  | succ n ih =>
    rw [List.range_succ, List.flatMap_append, List.flatMap_append, List.filter_append, ih]
    rfl

theorem conn_launch_facts (b : Bench) :
    (∀ e ∈ (List.range b.clients.toNat).flatMap
        (fun i => [LaunchEvent.wgAdd 1, .go (i : Int),
          .sleep (wrapInt64 (b.delay * Millisecond))]), e.isLaunchStep = true) ∧
    pendingAdds ((List.range b.clients.toNat).flatMap
        (fun i => [LaunchEvent.wgAdd 1, .go (i : Int),
          .sleep (wrapInt64 (b.delay * Millisecond))])) = b.clients.toNat ∧
    pendingGos ((List.range b.clients.toNat).flatMap
        (fun i => [LaunchEvent.wgAdd 1, .go (i : Int),
          .sleep (wrapInt64 (b.delay * Millisecond))])) = b.clients.toNat :=
  launch_loop_facts _ _ (fun i =>
    ⟨by intro e he; simp at he; rcases he with h | h | h <;> subst h <;> rfl,
     by simp [pendingAdds], by simp [pendingGos]⟩)

theorem launchAll_facts (b : Bench) :
    (∀ e ∈ (List.range b.clients.toNat).flatMap
        (fun i => [LaunchEvent.wgAdd 1, .go (i : Int)]), e.isLaunchStep = true) ∧
    pendingAdds ((List.range b.clients.toNat).flatMap
        (fun i => [LaunchEvent.wgAdd 1, .go (i : Int)])) = b.clients.toNat ∧
    pendingGos ((List.range b.clients.toNat).flatMap
        (fun i => [LaunchEvent.wgAdd 1, .go (i : Int)])) = b.clients.toNat :=
  launch_loop_facts _ _ (fun i =>
    ⟨by intro e he; simp at he; rcases he with h | h <;> subst h <;> rfl,
     by simp [pendingAdds], by simp [pendingGos]⟩)

/-- C17: in all three runners the completion barrier is balanced and guards
the summary. The launching goroutine does `wg.Add(1)` once per worker, right
before the `go` that starts it (the connection runner sleeps in between
rounds), then `wg.Wait()`, then the closing log line. Every worker, whatever
the capability answers (connect failure, operation failure, normal end),
calls `wg.Done()` exactly once, as its last act. And in every interleaving of
the launching goroutine and the workers in which the closing line has been
logged, every one of the `clients` workers has been started and has
returned, and the counter is back at zero. -/
theorem C17_completion_barrier (b : Bench) (now : Config) (cap : Capability) :
    ((RunConnections.launch b).filter (fun e => !e.isSleep) =
        (List.range b.clients.toNat).flatMap (fun i => [LaunchEvent.wgAdd 1, .go (i : Int)]) ++
          [.wgWait, .logFinished] ∧
      launchAll b =
        (List.range b.clients.toNat).flatMap (fun i => [LaunchEvent.wgAdd 1, .go (i : Int)]) ++
          [.wgWait, .logFinished]) ∧
    (∀ i,
      ((RunConnections.worker b now cap i).count Event.wgDone = 1 ∧
        (RunConnections.worker b now cap i).getLast? = some Event.wgDone) ∧
      ((PublishMessages.worker b now cap i).count Event.wgDone = 1 ∧
        (PublishMessages.worker b now cap i).getLast? = some Event.wgDone) ∧
      ((Subscribe.worker b now cap i).count Event.wgDone = 1 ∧
        (Subscribe.worker b now cap i).getLast? = some Event.wgDone)) ∧
    (∀ (sched : List Turn) (s : RunState),
      (initialRun (RunConnections.launch b)).run (RunConnections.worker b now cap) sched =
        some s →
      s.summaryLogged = true →
      allReturned s.workers ∧ s.workers.length = b.clients.toNat ∧ s.counter = 0) ∧
    (∀ (sched : List Turn) (s : RunState),
      (initialRun (launchAll b)).run (PublishMessages.worker b now cap) sched = some s →
      s.summaryLogged = true →
      allReturned s.workers ∧ s.workers.length = b.clients.toNat ∧ s.counter = 0) ∧
    (∀ (sched : List Turn) (s : RunState),
      (initialRun (launchAll b)).run (Subscribe.worker b now cap) sched = some s →
      s.summaryLogged = true →
      allReturned s.workers ∧ s.workers.length = b.clients.toNat ∧ s.counter = 0) := by
  obtain ⟨c1, c2, c3⟩ := conn_launch_facts b
  obtain ⟨a1, a2, a3⟩ := launchAll_facts b
  refine ⟨⟨?_, rfl⟩, fun i => ⟨conn_worker_done b now cap i, pub_worker_done b now cap i,
    sub_worker_done b now cap i⟩, fun sched s hrun hlog => ?_, fun sched s hrun hlog => ?_,
    fun sched s hrun hlog => ?_⟩
  · unfold RunConnections.launch
    rw [List.filter_append, launch_without_sleeps]
    rfl
  · obtain ⟨h1, h2, h3⟩ := summary_after_workers _ (conn_worker_done b now cap) _ c1
      (by rw [c2, c3]) sched s hrun hlog
    rw [c3] at h2
    exact ⟨h1, by exact_mod_cast h2, h3⟩
  · obtain ⟨h1, h2, h3⟩ := summary_after_workers _ (pub_worker_done b now cap) _ a1
      (by rw [a2, a3]) sched s hrun hlog
    rw [a3] at h2
    exact ⟨h1, by exact_mod_cast h2, h3⟩
  · obtain ⟨h1, h2, h3⟩ := summary_after_workers _ (sub_worker_done b now cap) _ a1
      (by rw [a2, a3]) sched s hrun hlog
    rw [a3] at h2
    exact ⟨h1, by exact_mod_cast h2, h3⟩

theorem C17_completion_barrier_witness :
    ∃ s, (initialRun (RunConnections.launch twoClients)).run
        (RunConnections.worker twoClients sampleConfig neverConnects) sequentialSchedule =
        some s ∧
      s.summaryLogged = true ∧
      allReturned s.workers ∧ s.workers.length = twoClients.clients.toNat ∧ s.counter = 0 :=
  ⟨_, rfl, rfl,
    (C17_completion_barrier twoClients sampleConfig neverConnects).2.2.1
      sequentialSchedule _ rfl rfl⟩

end Benchmq
